import Mathlib

/-!
Shallow embedding of the reactive-signals core (`src/mod.ts`) of the
`pkg-signals` repository.

The TypeScript module is a single-threaded reactive graph: `Signal` cells,
`Computed` derivations and `Effect` reactions, coordinated through a handful
of module-level globals (`eval_listener`, `eval_sources_index`,
`eval_untracked_sources`, `batched_effect`, `batch_depth`, `batch_iteration`,
`write_clock`, `read_clock`).

The embedding makes every piece of mutable state explicit in a record `St`.
Nodes live in a heap `St.nodes : Nat → Node` addressed by node ids; the three
classes become one `Node` record with a `kind` tag (fields unused by a kind
keep their initial value).  JS values are modelled as `Int` (strict equality
`!==` becomes decidable equality), and a thrown JS value is an `Except Int`
error.  Every recursive operation is driven by explicit fuel; `none` marks
fuel exhaustion (a model artifact, distinct from a JS throw).

Ghost instrumentation (never read by the modelled code): `St.compute_count`
counts invocations of each node's compute function, and `St.runlog` records
the order in which compute bodies start; both are appended exactly where
`_refresh` invokes `this._compute`.
-/

/-- Flag bitset of the source's `const enum Flags`, one Bool per bit. -/
structure Flags where
  running : Bool
  dirty : Bool
  maybe_dirty : Bool
  tracking : Bool
  notified : Bool
  disposed : Bool
  has_error : Bool
deriving DecidableEq, Repr

/-- All flags clear. -/
def noFlags : Flags :=
  ⟨false, false, false, false, false, false, false⟩

/-- Node kind: `Signal`, `Computed` or `Effect`. -/
inductive NKind where
  | sig
  | comp
  | eff
deriving DecidableEq, Repr

/-- The flag argument of `_notify`: `Flags.DIRTY` or `Flags.MAYBE_DIRTY`. -/
inductive NFlag where
  | dirty
  | maybe
deriving DecidableEq, Repr

/-- Apply a notify flag to a flag record (the `flags |= flag` part). -/
def Flags.orNotify (f : Flags) (nf : NFlag) : Flags :=
  match nf with
  | .dirty => { f with dirty := true }
  | .maybe => { f with maybe_dirty := true }

/-- Body language for compute functions and cleanup callbacks.  `prevE` is
the `prev` argument passed to the body, `readV i` is a tracked `.value`
read of node `i`, `peekE i` is `.peek()`, `writeV i e` is `.value = e`
(evaluating to the written value), `throwE e` throws the value of `e`. -/
inductive Expr where
  | lit : Int → Expr
  | prevE : Expr
  | readV : Nat → Expr
  | peekE : Nat → Expr
  | writeV : Nat → Expr → Expr
  | throwE : Expr → Expr
  | seqE : Expr → Expr → Expr
  | addE : Expr → Expr → Expr
deriving DecidableEq, Repr

/-- One heap node.  Field names follow the source: `epoch` is `_epoch`,
`access_epoch` is `_access_epoch`, `dependants` is `_dependants`,
`dependencies` is `_dependencies`, `realm_write_epoch` is
`_realm_write_epoch`, `context_epoch` is `_context_epoch`, `cleanups` is
`_cleanups`, `next_batched` is `_next_batched_effect`. -/
structure Node where
  kind : NKind
  value : Int
  epoch : Int
  access_epoch : Int
  dependants : List Nat
  dependencies : List Nat
  flags : Flags
  realm_write_epoch : Int
  context_epoch : Int
  compute : Expr
  cleanups : List Expr
  next_batched : Option Nat
deriving DecidableEq, Repr

/-- A fresh `Signal` node (field initialisers of `class Signal`). -/
def mkSignal (v : Int) : Node :=
  { kind := .sig, value := v, epoch := -1, access_epoch := -1,
    dependants := [], dependencies := [], flags := noFlags,
    realm_write_epoch := -1, context_epoch := -1, compute := .lit 0,
    cleanups := [], next_batched := none }

/-- A fresh `Computed` node (field initialisers of `class Computed`;
`_flags = Flags.DIRTY`). -/
def mkComputed (f : Expr) (v : Int) : Node :=
  { kind := .comp, value := v, epoch := -1, access_epoch := -1,
    dependants := [], dependencies := [], flags := { noFlags with dirty := true },
    realm_write_epoch := -1, context_epoch := -1, compute := f,
    cleanups := [], next_batched := none }

/-- A fresh `Effect` node (field initialisers of `class Effect`;
`_flags = Flags.TRACKING`). -/
def mkEffect (f : Expr) (v : Int) : Node :=
  { kind := .eff, value := v, epoch := -1, access_epoch := -1,
    dependants := [], dependencies := [], flags := { noFlags with tracking := true },
    realm_write_epoch := -1, context_epoch := -1, compute := f,
    cleanups := [], next_batched := none }

/-- Whole-interpreter state: the heap plus the module-level globals of
`mod.ts`, and the ghost instrumentation fields. -/
structure St where
  nodes : Nat → Node
  eval_listener : Option Nat
  eval_sources_index : Nat
  eval_untracked_sources : Option (List Nat)
  batched_effect : Option Nat
  batch_depth : Nat
  batch_iteration : Nat
  write_clock : Int
  read_clock : Int
  compute_count : Nat → Nat
  runlog : List Nat

/-- Replace node `i` in the heap. -/
def St.upd (st : St) (i : Nat) (n : Node) : St :=
  { st with nodes := fun j => if j = i then n else st.nodes j }

/-- Initial state: empty heap of fresh signals, all globals at their
module-initialisation values. -/
def init_st : St :=
  { nodes := fun _ => mkSignal 0, eval_listener := none,
    eval_sources_index := 0, eval_untracked_sources := none,
    batched_effect := none, batch_depth := 0, batch_iteration := 0,
    write_clock := 0, read_clock := 0, compute_count := fun _ => 0,
    runlog := [] }

/-- JS `Array.prototype.indexOf`: index of the first occurrence, `-1` when
absent. -/
def js_index_of (l : List Nat) (t : Nat) : Int :=
  match l with
  | [] => -1
  | x :: xs =>
    if x = t then 0
    else if js_index_of xs t = -1 then -1 else js_index_of xs t + 1

/-- JS `arr.splice(i, 1)` as a pure list operation.  A non-negative `i`
removes the element at position `i`; a negative `i` counts from the end, so
the `-1` produced by a failed `indexOf` removes the *last* element (and on
an empty array removes nothing). -/
def js_splice1 (l : List Nat) (i : Int) : List Nat :=
  let start : Nat := if i < 0 then (i + l.length).toNat else i.toNat
  l.take start ++ l.drop (start + 1)

/-- Body of `Signal._unsubscribe`: `indexOf` then `splice(index, 1)`. -/
def remove_dependant (l : List Nat) (t : Nat) : List Nat :=
  js_splice1 l (js_index_of l t)

/-!  `_notify` dispatch.  `Signal` has no `_notify` in the source (it is
never notified); `Computed._notify` ors in the flag and propagates
`MAYBE_DIRTY` to its dependants; `Effect._notify` ors in the flag and
pushes itself onto the head of the batched linked list. -/

mutual

def notify : Nat → St → Nat → NFlag → Option St
  | 0, _, _, _ => none
  | fuel + 1, st, i, flag =>
    let n := st.nodes i
    match n.kind with
    | .sig => some st
    | .eff =>
      if n.flags.notified || n.flags.running then some st
      else
        let st := st.upd i { n with
          flags := { n.flags.orNotify flag with notified := true },
          next_batched := st.batched_effect }
        some { st with batched_effect := some i }
    | .comp =>
      if n.flags.notified || n.flags.running then some st
      else
        let st := st.upd i { n with
          flags := { n.flags.orNotify flag with notified := true } }
        notify_list fuel st n.dependants NFlag.maybe

def notify_list : Nat → St → List Nat → NFlag → Option St
  | _, st, [], _ => some st
  | 0, _, _ :: _, _ => none
  | fuel + 1, st, d :: ds, flag =>
    match notify fuel st d flag with
    | none => none
    | some st => notify_list fuel st ds flag

end

/-!  `_subscribe` / `_unsubscribe` dispatch.  `Signal._subscribe` pushes the
target; `Computed._subscribe` first (when its dependant count was 0) sets
`TRACKING` and subscribes itself to each of its dependencies, then pushes.
`Signal._unsubscribe` is `indexOf` + `splice`; `Computed._unsubscribe`
splices first and then (when its dependant count dropped to 0) clears
`TRACKING` and unsubscribes itself from each dependency.  `Effect` nodes
never occur as subscription sources in the real program; they take the
plain `Signal` behaviour here so the functions stay total. -/

mutual

def subscribe : Nat → St → Nat → Nat → Option St
  | 0, _, _, _ => none
  | fuel + 1, st, i, target =>
    let n := st.nodes i
    match n.kind with
    | .comp =>
      if n.dependants.length < 1 then
        let st := st.upd i { n with flags := { n.flags with tracking := true } }
        match subscribe_list fuel st n.dependencies i with
        | none => none
        | some st =>
          let m := st.nodes i
          some (st.upd i { m with dependants := m.dependants ++ [target] })
      else
        some (st.upd i { n with dependants := n.dependants ++ [target] })
    | _ => some (st.upd i { n with dependants := n.dependants ++ [target] })

def subscribe_list : Nat → St → List Nat → Nat → Option St
  | _, st, [], _ => some st
  | 0, _, _ :: _, _ => none
  | fuel + 1, st, d :: ds, target =>
    match subscribe fuel st d target with
    | none => none
    | some st => subscribe_list fuel st ds target

def unsubscribe : Nat → St → Nat → Nat → Option St
  | 0, _, _, _ => none
  | fuel + 1, st, i, target =>
    let n := st.nodes i
    match n.kind with
    | .comp =>
      let st := st.upd i { n with dependants := remove_dependant n.dependants target }
      let m := st.nodes i
      if m.dependants.length < 1 then
        let st := st.upd i { m with flags := { m.flags with tracking := false } }
        unsubscribe_list fuel st m.dependencies i
      else
        some st
    | _ => some (st.upd i { n with dependants := remove_dependant n.dependants target })

def unsubscribe_list : Nat → St → List Nat → Nat → Option St
  | _, st, [], _ => some st
  | 0, _, _ :: _, _ => none
  | fuel + 1, st, d :: ds, target =>
    match unsubscribe fuel st d target with
    | none => none
    | some st => unsubscribe_list fuel st ds target

end

/-- The tracked-read bookkeeping shared by `Signal`'s `get value` (and, via
`super.value`, by `Computed`'s): when a listener is running and its
`_context_epoch` differs from this node's `_access_epoch`, stamp
`_access_epoch` and either push onto the new-dependency buffer, advance the
cursor on a match with `deps[eval_sources_index]`, or allocate the buffer. -/
def base_get (st : St) (i : Nat) : St × Int :=
  match st.eval_listener with
  | none => (st, (st.nodes i).value)
  | some l =>
    if (st.nodes l).context_epoch ≠ (st.nodes i).access_epoch then
      let st := st.upd i { st.nodes i with access_epoch := (st.nodes l).context_epoch }
      match st.eval_untracked_sources with
      | some buf => ({ st with eval_untracked_sources := some (buf ++ [i]) }, (st.nodes i).value)
      | none =>
        if (st.nodes l).dependencies.get? st.eval_sources_index = some i then
          ({ st with eval_sources_index := st.eval_sources_index + 1 }, (st.nodes i).value)
        else
          ({ st with eval_untracked_sources := some [i] }, (st.nodes i).value)
    else (st, (st.nodes i).value)

/-- `prune_context_sources`: unsubscribe the current listener from every
entry of its dependency list — the loop in the source runs from index `0`,
over the *whole* list, not from `eval_sources_index`. -/
def prune_context_sources (fuel : Nat) (st : St) : Option St :=
  match st.eval_listener with
  | none => some st
  | some l => unsubscribe_list fuel st (st.nodes l).dependencies l

/-- `cleanup_context`: end-of-run dependency reconciliation.  With a
non-empty buffer: prune, rebuild `deps` as `deps[0..eval_sources_index) ++
buffer` (the source's two branches — in-place overwrite when the cursor is
positive, array replacement when it is zero — both produce exactly this),
then, if the listener is `TRACKING`, subscribe it to the entries from the
cursor onward.  With no buffer but a short cursor: prune and truncate. -/
def cleanup_context (fuel : Nat) (st : St) : Option St :=
  match st.eval_listener with
  | none => some st
  | some l =>
    let deps := (st.nodes l).dependencies
    match st.eval_untracked_sources with
    | some buf =>
      match prune_context_sources fuel st with
      | none => none
      | some st =>
        let newdeps := deps.take st.eval_sources_index ++ buf
        let st := st.upd l { st.nodes l with dependencies := newdeps }
        if (st.nodes l).flags.tracking then
          subscribe_list fuel st (newdeps.drop st.eval_sources_index) l
        else
          some st
    | none =>
      if st.eval_sources_index < deps.length then
        match prune_context_sources fuel st with
        | none => none
        | some st =>
          some (st.upd l { st.nodes l with dependencies := deps.take st.eval_sources_index })
      else
        some st

/-!  Named state-transformers for the line groups of `mod.ts` that only
shuffle state.  They keep the mutual interpreter below and the theorems
about it readable; each mirrors the cited lines of the source exactly. -/

/-- `set value` lines 288-290: `this._epoch = ++write_clock; this._value =
next` (the clock ticks and the new epoch is stored into the signal). -/
def set_mid (st : St) (i : Nat) (v : Int) : St :=
  { st.upd i { st.nodes i with epoch := st.write_clock + 1, value := v } with
    write_clock := st.write_clock + 1 }

/-- The inlined `start_batch()` scope push (`batch_depth++`). -/
def push_batch (st : St) : St := { st with batch_depth := st.batch_depth + 1 }

/-- `Computed._refresh` line 354: store back the flags with `NOTIFIED`
cleared. -/
def clear_notified (st : St) (i : Nat) : St :=
  st.upd i { st.nodes i with flags := { (st.nodes i).flags with notified := false } }

/-- `Computed._refresh` lines 367-368: clear `DIRTY|MAYBE_DIRTY`, set
`RUNNING`, stamp `realm_write_epoch = write_clock`. -/
def comp_mark_running (st : St) (i : Nat) (flags : Flags) : St :=
  st.upd i { st.nodes i with
    flags := { flags with dirty := false, maybe_dirty := false, running := true },
    realm_write_epoch := st.write_clock }

/-- `Computed._refresh` lines 384-388: stamp `context_epoch = read_clock++`
and install the node as the current listener with a fresh tracking context.
Also records the ghost compute-invocation instrumentation. -/
def enter_compute (st : St) (i : Nat) : St :=
  let st := st.upd i { st.nodes i with context_epoch := st.read_clock }
  { st with
    read_clock := st.read_clock + 1, eval_listener := some i,
    eval_untracked_sources := none, eval_sources_index := 0,
    compute_count := fun j => if j = i then st.compute_count j + 1 else st.compute_count j,
    runlog := st.runlog ++ [i] }

/-- `Computed._refresh` lines 392-406: store the computed value (or caught
error), set/clear `HAS_ERROR`, stamp `_epoch = _realm_write_epoch =
++write_clock`. -/
def comp_commit (st : St) (i : Nat) (v : Int) (is_err : Bool) : St :=
  let s := st.upd i { st.nodes i with
    value := v,
    flags := { (st.nodes i).flags with has_error := is_err },
    epoch := st.write_clock + 1, realm_write_epoch := st.write_clock + 1 }
  { s with write_clock := s.write_clock + 1 }

/-- `Computed._refresh` lines 408-415: reconcile dependencies, restore the
outer tracking context, clear `RUNNING` and report the staleness verdict. -/
def comp_finish (fuel : Nat) (pl : Option Nat) (ps : Option (List Nat)) (pidx : Nat)
    (st : St) (i : Nat) (stale : Bool) : Option (St × Except Int Bool) :=
  match cleanup_context fuel st with
  | none => none
  | some st4 =>
    let st5 := { st4 with
      eval_listener := pl,
      eval_untracked_sources := ps, eval_sources_index := pidx }
    let m := st5.nodes i
    some (st5.upd i { m with flags := { m.flags with running := false } }, Except.ok stale)

/-- `Effect._refresh` lines 533-543 (the `try` prologue): push a batch
scope, install the effect as listener with a fresh tracking context, stamp
`_epoch = write_clock` and `_context_epoch = read_clock++`, clear
`DIRTY|MAYBE_DIRTY` and set `RUNNING` from the flags snapshot.  Also
records the ghost compute-invocation instrumentation. -/
def eff_enter (st : St) (i : Nat) (flags : Flags) : St :=
  let st := { st with
    batch_depth := st.batch_depth + 1,
    eval_listener := some i, eval_untracked_sources := none,
    eval_sources_index := 0 }
  let st := st.upd i { st.nodes i with
    epoch := st.write_clock,
    context_epoch := st.read_clock,
    flags := { flags with dirty := false, maybe_dirty := false, running := true } }
  { st with
    read_clock := st.read_clock + 1,
    compute_count := fun j => if j = i then st.compute_count j + 1 else st.compute_count j,
    runlog := st.runlog ++ [i] }

/-!  The mutually recursive core: expression evaluation, `_refresh` for the
three node kinds, `is_stale`, `Signal`'s `set value`, and the batch
scheduler (`end_batch` and its drain loop, modelled with the `has_error` /
`error` locals of the source), plus the effect cleanup/dispose paths.
`drain_errs` / `wave_errs` are ghost twins of the drain loop that collect
*every* caught error in order instead of remembering only the first; they
are used to state what "the first error of a drain" means. -/

mutual

def eval : Nat → St → Int → Expr → Option (St × Except Int Int)
  | 0, _, _, _ => none
  | fuel + 1, st, prev, e =>
    match e with
    | .lit k => some (st, .ok k)
    | .prevE => some (st, .ok prev)
    | .readV i => get_value fuel st i
    | .peekE i => peek_fn fuel st i
    | .writeV i body =>
      match eval fuel st prev body with
      | none => none
      | some (st, .error x) => some (st, .error x)
      | some (st, .ok v) =>
        match signal_set fuel st i v with
        | none => none
        | some (st, .error x) => some (st, .error x)
        | some (st, .ok _) => some (st, .ok v)
    | .throwE body =>
      match eval fuel st prev body with
      | none => none
      | some (st, .error x) => some (st, .error x)
      | some (st, .ok v) => some (st, .error v)
    | .seqE a b =>
      match eval fuel st prev a with
      | none => none
      | some (st, .error x) => some (st, .error x)
      | some (st, .ok _) => eval fuel st prev b
    | .addE a b =>
      match eval fuel st prev a with
      | none => none
      | some (st, .error x) => some (st, .error x)
      | some (st, .ok va) =>
        match eval fuel st prev b with
        | none => none
        | some (st, .error x) => some (st, .error x)
        | some (st, .ok vb) => some (st, .ok (va + vb))
  termination_by structural fuel => fuel

def get_value : Nat → St → Nat → Option (St × Except Int Int)
  | 0, _, _ => none
  | fuel + 1, st, i =>
    match (st.nodes i).kind with
    | .comp =>
      match refresh fuel st i with
      | none => none
      | some (st, .error x) => some (st, .error x)
      | some (st, .ok _) =>
        let f := (st.nodes i).flags
        let p := base_get st i
        some (p.1, if f.has_error then .error p.2 else .ok p.2)
    | _ =>
      let p := base_get st i
      some (p.1, .ok p.2)
  termination_by structural fuel => fuel

def peek_fn : Nat → St → Nat → Option (St × Except Int Int)
  | 0, _, _ => none
  | fuel + 1, st, i =>
    match (st.nodes i).kind with
    | .comp =>
      match refresh fuel st i with
      | none => none
      | some (st, .error x) => some (st, .error x)
      | some (st, .ok _) =>
        let m := st.nodes i
        some (st, if m.flags.has_error then .error m.value else .ok m.value)
    | _ => some (st, .ok (st.nodes i).value)
  termination_by structural fuel => fuel

def signal_set : Nat → St → Nat → Int → Option (St × Except Int Unit)
  | 0, _, _, _ => none
  | fuel + 1, st, i, v =>
    if (st.nodes i).value ≠ v then
      let st := set_mid st i v
      if st.batch_iteration < 100 then
        let deps := (st.nodes i).dependants
        let st := push_batch st
        match notify_list fuel st deps NFlag.dirty with
        | none => none
        | some st => end_batch fuel st
      else some (st, .ok ())
    else some (st, .ok ())
  termination_by structural fuel => fuel

def is_stale : Nat → St → Nat → Flags → Option (St × Except Int Bool)
  | 0, _, _, _ => none
  | fuel + 1, st, i, flags =>
    let deps := (st.nodes i).dependencies
    if flags.dirty then some (st, .ok true)
    else if flags.maybe_dirty then stale_loop fuel st i deps
    else some (st, .ok false)
  termination_by structural fuel => fuel

def stale_loop : Nat → St → Nat → List Nat → Option (St × Except Int Bool)
  | _, st, _, [] => some (st, .ok false)
  | 0, _, _, _ :: _ => none
  | fuel + 1, st, i, d :: ds =>
    if (st.nodes d).epoch > (st.nodes i).epoch then some (st, .ok true)
    else
      match refresh fuel st d with
      | none => none
      | some (st, .error x) => some (st, .error x)
      | some (st, .ok true) => some (st, .ok true)
      | some (st, .ok false) => stale_loop fuel st i ds
  termination_by structural fuel => fuel

def refresh : Nat → St → Nat → Option (St × Except Int Bool)
  | 0, _, _ => none
  | fuel + 1, st, i =>
    let n := st.nodes i
    match n.kind with
    | .sig => some (st, .ok false)
    | .comp =>
      let flags := { n.flags with notified := false }
      let st := clear_notified st i
      if n.realm_write_epoch = st.write_clock ∨
          (flags.tracking = true ∧ flags.dirty = false ∧ flags.maybe_dirty = false) ∨
          flags.running = true then
        some (st, .ok false)
      else
        let st := comp_mark_running st i flags
        let stale_check :=
          if (st.nodes i).epoch > -1 then is_stale fuel st i flags
          else some (st, Except.ok true)
        match stale_check with
        | none => none
        | some (st, .error x) => some (st, .error x)
        | some (st, .ok false) =>
          let m := st.nodes i
          some (st.upd i { m with flags := { m.flags with running := false } }, .ok false)
        | some (st, .ok true) =>
          let prev_value := (st.nodes i).value
          let pl := st.eval_listener
          let ps := st.eval_untracked_sources
          let pidx := st.eval_sources_index
          let st := enter_compute st i
          match eval fuel st prev_value (st.nodes i).compute with
          | none => none
          | some (st2, .ok v) =>
            if flags.has_error = true ∨ prev_value ≠ v ∨ (st2.nodes i).epoch = -1 then
              comp_finish fuel pl ps pidx (comp_commit st2 i v false) i true
            else
              comp_finish fuel pl ps pidx st2 i false
          | some (st2, .error e) =>
            comp_finish fuel pl ps pidx (comp_commit st2 i e true) i true
    | .eff =>
      let flags := n.flags
      if flags.running = true then some (st, .ok false)
      else
        let pl := st.eval_listener
        let ps := st.eval_untracked_sources
        let pidx := st.eval_sources_index
        let st := eff_enter st i flags
        match eval fuel st (st.nodes i).value (st.nodes i).compute with
        | none => none
        | some (st2, r) =>
          let st2 :=
            match r with
            | .ok v => st2.upd i { st2.nodes i with value := v }
            | .error _ => st2
          match cleanup_context fuel st2 with
          | none => none
          | some st3 =>
            let st3 := { st3 with
              eval_listener := pl,
              eval_untracked_sources := ps, eval_sources_index := pidx }
            let m := st3.nodes i
            let st3 := st3.upd i { m with flags := { m.flags with running := false } }
            let dispose_step :=
              if m.flags.disposed then dispose_effect fuel st3 i true
              else some (st3, Except.ok ())
            match dispose_step with
            | none => none
            | some (st4, .error e2) => some (st4, .error e2)
            | some (st4, .ok _) =>
              match end_batch fuel st4 with
              | none => none
              | some (st5, .error e3) => some (st5, .error e3)
              | some (st5, .ok _) =>
                match r with
                | .ok _ => some (st5, .ok false)
                | .error e => some (st5, .error e)
  termination_by structural fuel => fuel

def end_batch : Nat → St → Option (St × Except Int Unit)
  | 0, _ => none
  | fuel + 1, st =>
    if st.batch_depth > 1 then
      some ({ st with batch_depth := st.batch_depth - 1 }, .ok ())
    else
      drain fuel st false 0
  termination_by structural fuel => fuel

def drain : Nat → St → Bool → Int → Option (St × Except Int Unit)
  | 0, _, _, _ => none
  | fuel + 1, st, has_error, err =>
    match st.batched_effect with
    | none =>
      let st := { st with batch_iteration := 0, batch_depth := st.batch_depth - 1 }
      some (st, if has_error then .error err else .ok ())
    | some h =>
      let st := { st with
        batched_effect := none,
        batch_iteration := st.batch_iteration + 1 }
      match wave fuel st (some h) has_error err with
      | none => none
      | some (st, .error x) => some (st, .error x)
      | some (st, .ok p) => drain fuel st p.1 p.2
  termination_by structural fuel => fuel

def wave : Nat → St → Option Nat → Bool → Int → Option (St × Except Int (Bool × Int))
  | _, st, none, has_error, err => some (st, .ok (has_error, err))
  | 0, _, some _, _, _ => none
  | fuel + 1, st, some e, has_error, err =>
    let n := st.nodes e
    let next := n.next_batched
    let flags := { n.flags with notified := false }
    let st := st.upd e { n with flags := flags, next_batched := none }
    if flags.disposed = false then
      match is_stale fuel st e flags with
      | none => none
      | some (st, .error x) => some (st, .error x)
      | some (st, .ok true) =>
        match refresh fuel st e with
        | none => none
        | some (st, .error e2) =>
          if has_error then wave fuel st next has_error err
          else wave fuel st next true e2
        | some (st, .ok _) => wave fuel st next has_error err
      | some (st, .ok false) => wave fuel st next has_error err
    else wave fuel st next has_error err
  termination_by structural fuel => fuel

def drain_errs : Nat → St → List Int → Option (St × Except Int (List Int))
  | 0, _, _ => none
  | fuel + 1, st, acc =>
    match st.batched_effect with
    | none =>
      let st := { st with batch_iteration := 0, batch_depth := st.batch_depth - 1 }
      some (st, .ok acc)
    | some h =>
      let st := { st with
        batched_effect := none,
        batch_iteration := st.batch_iteration + 1 }
      match wave_errs fuel st (some h) acc with
      | none => none
      | some (st, .error x) => some (st, .error x)
      | some (st, .ok acc) => drain_errs fuel st acc
  termination_by structural fuel => fuel

def wave_errs : Nat → St → Option Nat → List Int → Option (St × Except Int (List Int))
  | _, st, none, acc => some (st, .ok acc)
  | 0, _, some _, _ => none
  | fuel + 1, st, some e, acc =>
    let n := st.nodes e
    let next := n.next_batched
    let flags := { n.flags with notified := false }
    let st := st.upd e { n with flags := flags, next_batched := none }
    if flags.disposed = false then
      match is_stale fuel st e flags with
      | none => none
      | some (st, .error x) => some (st, .error x)
      | some (st, .ok true) =>
        match refresh fuel st e with
        | none => none
        | some (st, .error e2) => wave_errs fuel st next (acc ++ [e2])
        | some (st, .ok _) => wave_errs fuel st next acc
      | some (st, .ok false) => wave_errs fuel st next acc
    else wave_errs fuel st next acc
  termination_by structural fuel => fuel

def cleanup_effect : Nat → St → Nat → Option (St × Except Int Unit)
  | 0, _, _ => none
  | fuel + 1, st, i =>
    let cleanups := (st.nodes i).cleanups
    if cleanups.length > 0 then
      let prev_listener := st.eval_listener
      let st := { st with batch_depth := st.batch_depth + 1, eval_listener := none }
      let fin := fun (s : St) (res : Except Int Unit) =>
        let m2 := s.nodes i
        let s := s.upd i { m2 with cleanups := [] }
        let s := { s with eval_listener := prev_listener }
        match end_batch fuel s with
        | none => none
        | some (s2, .error e3) => some (s2, .error e3)
        | some (s2, .ok _) => some (s2, res)
      match run_cleanups fuel st cleanups with
      | none => none
      | some (st2, .ok _) => fin st2 (.ok ())
      | some (st2, .error err) =>
        let m := st2.nodes i
        let st2 := st2.upd i { m with
          flags := { m.flags with running := false, disposed := true } }
        match dispose_effect fuel st2 i false with
        | none => none
        | some (st3, .error e2) => fin st3 (.error e2)
        | some (st3, .ok _) => fin st3 (.error err)
    else some (st, .ok ())
  termination_by structural fuel => fuel

def run_cleanups : Nat → St → List Expr → Option (St × Except Int Unit)
  | _, st, [] => some (st, .ok ())
  | 0, _, _ :: _ => none
  | fuel + 1, st, c :: cs =>
    match eval fuel st 0 c with
    | none => none
    | some (st, .error e) => some (st, .error e)
    | some (st, .ok _) => run_cleanups fuel st cs
  termination_by structural fuel => fuel

def dispose_effect : Nat → St → Nat → Bool → Option (St × Except Int Unit)
  | 0, _, _, _ => none
  | fuel + 1, st, i, run_cleanup =>
    match unsubscribe_list fuel st (st.nodes i).dependencies i with
    | none => none
    | some st =>
      let m := st.nodes i
      let st := st.upd i { m with dependencies := [] }
      if run_cleanup then cleanup_effect fuel st i
      else some (st, .ok ())
  termination_by structural fuel => fuel

end

/-- `untrack(cb)`: run the callback with the current listener cleared and
restore it afterwards (also on the throwing path); when no listener is set,
call the callback directly. -/
def untrack (fuel : Nat) (st : St) (cb : Expr) : Option (St × Except Int Int) :=
  match st.eval_listener with
  | none => eval fuel st 0 cb
  | some l =>
    match eval fuel { st with eval_listener := none } 0 cb with
    | none => none
    | some (st2, r) => some ({ st2 with eval_listener := some l }, r)

/-!  Basic simp lemmas about the heap update. -/

@[simp]
theorem St.upd_nodes (st : St) (i : Nat) (n : Node) (j : Nat) :
    (st.upd i n).nodes j = if j = i then n else st.nodes j := rfl

@[simp]
theorem St.upd_nodes_self (st : St) (i : Nat) (n : Node) :
    (st.upd i n).nodes i = n := by simp

@[simp]
theorem St.upd_write_clock (st : St) (i : Nat) (n : Node) :
    (st.upd i n).write_clock = st.write_clock := rfl

@[simp]
theorem St.upd_read_clock (st : St) (i : Nat) (n : Node) :
    (st.upd i n).read_clock = st.read_clock := rfl

@[simp]
theorem St.upd_eval_listener (st : St) (i : Nat) (n : Node) :
    (st.upd i n).eval_listener = st.eval_listener := rfl

@[simp]
theorem St.upd_eval_untracked (st : St) (i : Nat) (n : Node) :
    (st.upd i n).eval_untracked_sources = st.eval_untracked_sources := rfl

@[simp]
theorem St.upd_eval_sources_index (st : St) (i : Nat) (n : Node) :
    (st.upd i n).eval_sources_index = st.eval_sources_index := rfl

@[simp]
theorem St.upd_batched_effect (st : St) (i : Nat) (n : Node) :
    (st.upd i n).batched_effect = st.batched_effect := rfl

@[simp]
theorem St.upd_batch_depth (st : St) (i : Nat) (n : Node) :
    (st.upd i n).batch_depth = st.batch_depth := rfl

@[simp]
theorem St.upd_batch_iteration (st : St) (i : Nat) (n : Node) :
    (st.upd i n).batch_iteration = st.batch_iteration := rfl

@[simp]
theorem St.upd_compute_count (st : St) (i : Nat) (n : Node) :
    (st.upd i n).compute_count = st.compute_count := rfl

@[simp]
theorem St.upd_runlog (st : St) (i : Nat) (n : Node) :
    (st.upd i n).runlog = st.runlog := rfl

/-!  Characterisation of `Signal._unsubscribe`'s list surgery. -/

theorem js_index_of_not_mem (l : List Nat) (t : Nat) (h : t ∉ l) :
    js_index_of l t = -1 := by
  induction l with
  | nil => rfl
  | cons x xs ih =>
    simp only [List.mem_cons, not_or] at h
    have hx : ¬ x = t := fun hh => h.1 hh.symm
    unfold js_index_of
    rw [if_neg hx, ih h.2]
    simp

theorem js_index_of_nonneg (l : List Nat) (t : Nat) (h : t ∈ l) :
    0 ≤ js_index_of l t := by
  induction l with
  | nil => simp at h
  | cons x xs ih =>
    by_cases hx : x = t
    · unfold js_index_of
      rw [if_pos hx]
    · have ht : t ∈ xs := by
        rcases List.mem_cons.mp h with h' | h'
        · exact absurd h'.symm hx
        · exact h'
      have := ih ht
      unfold js_index_of
      rw [if_neg hx]
      split
      · omega
      · omega

theorem js_splice1_neg_one (l : List Nat) : js_splice1 l (-1) = l.dropLast := by
  unfold js_splice1
  simp only [if_pos (by norm_num : (-1 : Int) < 0)]
  rcases l with _ | ⟨x, xs⟩
  · rfl
  · have h1 : ((-1 : Int) + ((x :: xs).length : Int)).toNat = xs.length := by
      simp only [List.length_cons]
      omega
    rw [h1]
    rw [List.dropLast_eq_take]
    have h2 : (x :: xs).drop (xs.length + 1) = [] := by
      apply List.drop_eq_nil_of_le
      simp
    rw [h2, List.append_nil]
    simp

theorem remove_dependant_mem (l : List Nat) (t : Nat) (h : t ∈ l) :
    remove_dependant l t = l.erase t := by
  induction l with
  | nil => simp at h
  | cons x xs ih =>
    by_cases hx : x = t
    · subst hx
      simp [remove_dependant, js_index_of, js_splice1]
    · have ht : t ∈ xs := by
        rcases List.mem_cons.mp h with h' | h'
        · exact absurd h'.symm hx
        · exact h'
      have hnn := js_index_of_nonneg xs t ht
      have hne : js_index_of xs t ≠ -1 := by omega
      obtain ⟨m, hm⟩ : ∃ m : Nat, js_index_of xs t = (m : Int) :=
        ⟨(js_index_of xs t).toNat, (Int.toNat_of_nonneg hnn).symm⟩
      have hstep : remove_dependant (x :: xs) t = x :: remove_dependant xs t := by
        unfold remove_dependant
        have hhead : js_index_of (x :: xs) t = (m : Int) + 1 := by
          unfold js_index_of
          rw [if_neg hx, if_neg hne, hm]
        rw [hhead, hm]
        unfold js_splice1
        have h1 : ¬ ((m : Int) + 1 < 0) := by omega
        have h2 : ¬ ((m : Int) < 0) := by omega
        rw [if_neg h1, if_neg h2]
        have h3 : ((m : Int) + 1).toNat = m + 1 := by omega
        have h4 : ((m : Int)).toNat = m := by omega
        rw [h3, h4]
        simp [List.take_succ_cons, List.drop_succ_cons]
      rw [hstep, ih ht, List.erase_cons]
      simp [hx]

theorem remove_dependant_eq (l : List Nat) (t : Nat) :
    remove_dependant l t = if t ∈ l then l.erase t else l.dropLast := by
  by_cases h : t ∈ l
  · rw [if_pos h, remove_dependant_mem l t h]
  · rw [if_neg h]
    unfold remove_dependant
    rw [js_index_of_not_mem l t h, js_splice1_neg_one]

/-- C9: `Signal._unsubscribe(t)` computes `indexOf(t)` and passes the result
straight to `splice`: when `t` is present it removes exactly the first
occurrence of `t` from `dependants` (leaving the other entries in order),
and when `t` is absent the `-1` index makes `splice` remove the *last*
element of the list, so unsubscription is only well-behaved when the target
is actually subscribed. -/
theorem C9_unsubscribe_splice (fuel : Nat) (st : St) (s t : Nat)
    (hk : (st.nodes s).kind = NKind.sig) :
    unsubscribe (fuel + 1) st s t =
      some (st.upd s { st.nodes s with dependants :=
        if t ∈ (st.nodes s).dependants then (st.nodes s).dependants.erase t
        else (st.nodes s).dependants.dropLast }) := by
  unfold unsubscribe
  simp only [hk, remove_dependant_eq]

/-- A signal whose dependants list is `[5, 7, 5]`, for exercising both
branches of the unsubscribe characterisation. -/
def unsub_example_st : St :=
  init_st.upd 0 { mkSignal 0 with dependants := [5, 7, 5] }

/-- Witness for C9: on `[5, 7, 5]`, unsubscribing the present `7` removes
its first occurrence, and unsubscribing the absent `9` removes the last
element. -/
theorem C9_unsubscribe_splice_witness :
    (unsubscribe 1 unsub_example_st 0 7).map (fun s => (s.nodes 0).dependants) =
        some [5, 5] ∧
    (unsubscribe 1 unsub_example_st 0 9).map (fun s => (s.nodes 0).dependants) =
        some [5, 7] := by
  constructor
  · rw [C9_unsubscribe_splice 0 unsub_example_st 0 7 rfl]
    rfl
  · rw [C9_unsubscribe_splice 0 unsub_example_st 0 9 rfl]
    rfl

/-- C10: `untrack(cb)` returns exactly the callback's outcome (value or
thrown error) and restores `eval_listener` afterwards on both the normal
and the throwing path; apart from clearing and restoring the listener it
performs exactly the callback's own state change — in particular it touches
neither the new-dependency buffer nor the sources cursor itself. -/
theorem C10_untrack_restores (fuel : Nat) (st : St) (cb : Expr) :
    (st.eval_listener = none → untrack fuel st cb = eval fuel st 0 cb) ∧
    (∀ l, st.eval_listener = some l →
      untrack fuel st cb =
        (eval fuel { st with eval_listener := none } 0 cb).map
          (fun p => ({ p.1 with eval_listener := some l }, p.2))) := by
  constructor
  · intro h
    unfold untrack
    rw [h]
  · intro l hl
    unfold untrack
    rw [hl]
    rcases eval fuel { st with eval_listener := none } 0 cb with _ | ⟨st2, r⟩
    · rfl
    · rfl

/-- Witness for C10: with listener `3` installed, `untrack` of a literal
returns the literal with the listener restored, and `untrack` of a `throw`
propagates the thrown value with the listener restored. -/
theorem C10_untrack_restores_witness :
    (untrack 5 { init_st with eval_listener := some 3 } (Expr.lit 7)).map
        (fun p => (p.1.eval_listener, p.2)) = some (some 3, Except.ok 7) ∧
    (untrack 5 { init_st with eval_listener := some 3 } (Expr.throwE (Expr.lit 9))).map
        (fun p => (p.1.eval_listener, p.2)) = some (some 3, Except.error 9) := by
  constructor
  · rw [(C10_untrack_restores 5 { init_st with eval_listener := some 3 } (Expr.lit 7)).2
      3 rfl]
    rfl
  · rw [(C10_untrack_restores 5 { init_st with eval_listener := some 3 }
      (Expr.throwE (Expr.lit 9))).2 3 rfl]
    rfl

/-- A mid-reconciliation state: the listener (node 2) is a `TRACKING` effect
whose previous run had dependency list `[0, 1]` (and is subscribed to both),
whose current run re-matched dep `0` (cursor at 1) and then read the fresh
signal `3`, leaving the new-dependency buffer `[3]`. -/
def reconcile_st : St :=
  { init_st with
    nodes := fun j =>
      if j = 0 then { mkSignal 5 with dependants := [2] }
      else if j = 1 then { mkSignal 6 with dependants := [2] }
      else if j = 2 then { mkEffect (Expr.lit 0) 0 with dependencies := [0, 1] }
      else if j = 3 then mkSignal 7
      else mkSignal 0,
    eval_listener := some 2,
    eval_sources_index := 1,
    eval_untracked_sources := some [3] }

/-- C1 (refuted by the code — the kept prefix loses its subscription):
running the end-of-run reconciliation on `reconcile_st` rebuilds the
dependency list as prefix ++ buffer `[0, 3]` with `TRACKING` still set, and
subscribes the listener to the buffer entry `3`; but `prune_context_sources`
unsubscribed the listener from *all* old deps including the kept prefix
entry `0`, and the resubscription loop starts at the cursor, so afterwards
the listener is absent from `(nodes 0).dependants` — contradicting the
claim (and the spec's invariant 1) that the kept prefix remains
subscribed. -/
theorem C1_prefix_subscription_lost :
    (cleanup_context 50 reconcile_st).map (fun st =>
      ((st.nodes 2).dependencies, (st.nodes 2).flags.tracking,
        (st.nodes 0).dependants, (st.nodes 1).dependants,
        (st.nodes 3).dependants)) =
      some ([0, 3], true, [], [], [2]) := by
  rfl

/-- The staleness walk exactly as the spec words it: visit the dependency
list in order and report stale at the first dependency whose write epoch
advanced past the target's or whose `refresh()` reports a changed value;
report fresh when the walk ends.  (Spec-side counterpart of the loop inside
`is_stale`, for the refinement statement of C2.) -/
def stale_walk_spec : Nat → St → Nat → List Nat → Option (St × Except Int Bool)
  | _, st, _, [] => some (st, .ok false)
  | 0, _, _, _ :: _ => none
  | fuel + 1, st, i, d :: ds =>
    if (st.nodes d).epoch > (st.nodes i).epoch then some (st, .ok true)
    else
      match refresh fuel st d with
      | none => none
      | some (st, .error x) => some (st, .error x)
      | some (st, .ok true) => some (st, .ok true)
      | some (st, .ok false) => stale_walk_spec fuel st i ds

theorem stale_walk_spec_eq (fuel : Nat) : ∀ st i ds,
    stale_walk_spec fuel st i ds = stale_loop fuel st i ds := by
  induction fuel with
  | zero =>
    intro st i ds
    cases ds <;> rfl
  | succ f ih =>
    intro st i ds
    cases ds with
    | nil => rfl
    | cons d rest =>
      simp only [stale_walk_spec, stale_loop]
      split
      · rfl
      · rcases hr : refresh f st d with _ | ⟨st2, r⟩
        · rfl
        · rcases r with x | b
          · rfl
          · cases b
            · exact ih st2 i rest
            · rfl

theorem refresh_sig (f : Nat) (st : St) (d : Nat) (h : (st.nodes d).kind = NKind.sig) :
    refresh (f + 1) st d = some (st, .ok false) := by
  unfold refresh
  simp only [h]

theorem stale_loop_sig_only (st : St) (i : Nat) : ∀ ds fuel,
    ds.length < fuel →
    (∀ d ∈ ds, (st.nodes d).kind = NKind.sig) →
    stale_loop fuel st i ds =
      some (st, .ok (ds.any (fun d => decide ((st.nodes d).epoch > (st.nodes i).epoch)))) := by
  intro ds
  induction ds with
  | nil =>
    intro fuel _ _
    cases fuel <;> rfl
  | cons d rest ih =>
    intro fuel hlen hsig
    cases fuel with
    | zero => simp at hlen
    | succ f =>
      have hf : rest.length < f := by
        simp only [List.length_cons] at hlen
        omega
      have hd : (st.nodes d).kind = NKind.sig := hsig d (List.mem_cons_self d rest)
      have hrest : ∀ x ∈ rest, (st.nodes x).kind = NKind.sig :=
        fun x hx => hsig x (List.mem_cons_of_mem d hx)
      cases f with
      | zero => simp at hf
      | succ f2 =>
        by_cases hgt : (st.nodes d).epoch > (st.nodes i).epoch
        · simp [stale_loop, hgt]
        · simp only [stale_loop, List.any_cons, if_neg hgt, refresh_sig f2 st d hd]
          rw [ih (f2 + 1) hf hrest]
          simp [hgt]

/-- C2: `is_stale` returns `true` immediately when `DIRTY` is set; with only
`MAYBE_DIRTY` set it performs exactly the ordered dependency walk stated by
`stale_walk_spec` — stopping at the first dependency whose write epoch
advanced past the target's, or whose `refresh()` reported a change; with
neither flag set it returns `false`.  When every dependency is a plain
`Signal`, the `MAYBE_DIRTY` walk amounts to: stale iff some dependency has
a strictly newer write epoch than the target. -/
theorem C2_is_stale_spec (fuel : Nat) (st : St) (i : Nat) (flags : Flags) :
    (flags.dirty = true → is_stale (fuel + 1) st i flags = some (st, .ok true)) ∧
    (flags.dirty = false → flags.maybe_dirty = false →
      is_stale (fuel + 1) st i flags = some (st, .ok false)) ∧
    (flags.dirty = false → flags.maybe_dirty = true →
      is_stale (fuel + 1) st i flags =
        stale_walk_spec fuel st i (st.nodes i).dependencies) ∧
    (flags.dirty = false → flags.maybe_dirty = true →
      (∀ d ∈ (st.nodes i).dependencies, (st.nodes d).kind = NKind.sig) →
      (st.nodes i).dependencies.length < fuel →
      is_stale (fuel + 1) st i flags =
        some (st, .ok ((st.nodes i).dependencies.any
          (fun d => decide ((st.nodes d).epoch > (st.nodes i).epoch))))) := by
  refine ⟨?_, ?_, ?_, ?_⟩
  · intro hd
    unfold is_stale
    rw [hd]
    rfl
  · intro hd hm
    unfold is_stale
    rw [hd, hm]
    rfl
  · intro hd hm
    unfold is_stale
    rw [hd, hm]
    simp only [Bool.false_eq_true, if_false, if_true]
    exact (stale_walk_spec_eq fuel st i (st.nodes i).dependencies).symm
  · intro hd hm hsig hlen
    unfold is_stale
    rw [hd, hm]
    simp only [Bool.false_eq_true, if_false, if_true]
    exact stale_loop_sig_only st i (st.nodes i).dependencies fuel hlen hsig

/-- A target node 9 with signal dependencies `[4, 5]`; dep 5's epoch (3)
is newer than the target's (2). -/
def stale_example_st : St :=
  { init_st with nodes := fun j =>
      if j = 9 then { mkComputed (Expr.lit 0) 0 with dependencies := [4, 5], epoch := 2 }
      else if j = 4 then { mkSignal 0 with epoch := 0 }
      else if j = 5 then { mkSignal 0 with epoch := 3 }
      else mkSignal 0 }

/-- Witness for C2: with `DIRTY` the check short-circuits to `true`; with no
flag it is `false`; with `MAYBE_DIRTY` over signal deps `[4, 5]` it finds
dep 5's newer epoch and reports stale. -/
theorem C2_is_stale_spec_witness :
    is_stale 4 stale_example_st 9 { noFlags with dirty := true } =
        some (stale_example_st, .ok true) ∧
    is_stale 4 stale_example_st 9 noFlags = some (stale_example_st, .ok false) ∧
    is_stale 4 stale_example_st 9 { noFlags with maybe_dirty := true } =
        some (stale_example_st, .ok true) := by
  refine ⟨?_, ?_, ?_⟩
  · exact (C2_is_stale_spec 3 stale_example_st 9 { noFlags with dirty := true }).1 rfl
  · exact (C2_is_stale_spec 3 stale_example_st 9 noFlags).2.1 rfl rfl
  · rw [(C2_is_stale_spec 3 stale_example_st 9 { noFlags with maybe_dirty := true }).2.2.2
      rfl rfl (by decide) (by decide)]
    rfl

/-- What a `_notify` cascade can and cannot touch: it never changes a
node's kind, value, epoch, dependants, dependencies or `RUNNING` bit, never
clears `NOTIFIED`, and leaves the batch depth and the write clock alone. -/
def NotifyFrame (st st' : St) : Prop :=
  (∀ k, (st'.nodes k).kind = (st.nodes k).kind ∧
        (st'.nodes k).value = (st.nodes k).value ∧
        (st'.nodes k).epoch = (st.nodes k).epoch ∧
        (st'.nodes k).dependants = (st.nodes k).dependants ∧
        (st'.nodes k).dependencies = (st.nodes k).dependencies ∧
        (st'.nodes k).flags.running = (st.nodes k).flags.running ∧
        ((st.nodes k).flags.notified = true → (st'.nodes k).flags.notified = true)) ∧
  st'.batch_depth = st.batch_depth ∧ st'.write_clock = st.write_clock

theorem NotifyFrame.rfl_self (st : St) : NotifyFrame st st :=
  ⟨fun _ => ⟨rfl, rfl, rfl, rfl, rfl, rfl, fun h => h⟩, rfl, rfl⟩

theorem NotifyFrame.trans {s1 s2 s3 : St} (h1 : NotifyFrame s1 s2)
    (h2 : NotifyFrame s2 s3) : NotifyFrame s1 s3 := by
  refine ⟨fun k => ?_, ?_, ?_⟩
  · obtain ⟨a1, b1, c1, d1, e1, f1, g1⟩ := h1.1 k
    obtain ⟨a2, b2, c2, d2, e2, f2, g2⟩ := h2.1 k
    exact ⟨a2.trans a1, b2.trans b1, c2.trans c1, d2.trans d1, e2.trans e1,
      f2.trans f1, fun h => g2 (g1 h)⟩
  · exact h2.2.1.trans h1.2.1
  · exact h2.2.2.trans h1.2.2

theorem upd_notify_frame (st : St) (i : Nat) (nd : Node)
    (h1 : nd.kind = (st.nodes i).kind) (h2 : nd.value = (st.nodes i).value)
    (h3 : nd.epoch = (st.nodes i).epoch) (h4 : nd.dependants = (st.nodes i).dependants)
    (h5 : nd.dependencies = (st.nodes i).dependencies)
    (h6 : nd.flags.running = (st.nodes i).flags.running)
    (h7 : nd.flags.notified = true) :
    NotifyFrame st (st.upd i nd) := by
  refine ⟨fun k => ?_, rfl, rfl⟩
  by_cases hki : k = i
  · subst hki
    exact ⟨by simp [h1], by simp [h2], by simp [h3], by simp [h4], by simp [h5],
      by simp [h6], fun _ => by simp [h7]⟩
  · simp [St.upd, hki]

theorem notify_frame_all (fuel : Nat) :
    (∀ st i flag st', notify fuel st i flag = some st' → NotifyFrame st st') ∧
    (∀ st ds flag st', notify_list fuel st ds flag = some st' → NotifyFrame st st') := by
  induction fuel with
  | zero =>
    refine ⟨?_, ?_⟩
    · intro st i flag st' h
      simp [notify] at h
    · intro st ds flag st' h
      cases ds with
      | nil =>
        simp only [notify_list, Option.some.injEq] at h
        subst h
        exact NotifyFrame.rfl_self _
      | cons d rest => simp [notify_list] at h
  | succ f ih =>
    refine ⟨?_, ?_⟩
    · intro st i flag st' h
      unfold notify at h
      rcases hk : (st.nodes i).kind with _ | _ | _ <;> simp only [hk] at h
      case sig =>
        rw [Option.some.injEq] at h
        subst h
        exact NotifyFrame.rfl_self _
      case comp =>
        rcases hb : ((st.nodes i).flags.notified || (st.nodes i).flags.running) with _ | _ <;>
            rw [hb] at h
        · simp only [Bool.false_eq_true, if_false] at h
          refine NotifyFrame.trans (upd_notify_frame st i _ ?_ ?_ ?_ ?_ ?_ ?_ ?_)
            (ih.2 _ _ _ _ h)
          · simp [hk]
          · simp
          · simp
          · simp
          · simp
          · cases flag <;> simp [Flags.orNotify]
          · simp
        · simp only [if_true, Option.some.injEq] at h
          subst h
          exact NotifyFrame.rfl_self _
      case eff =>
        rcases hb : ((st.nodes i).flags.notified || (st.nodes i).flags.running) with _ | _ <;>
            rw [hb] at h
        · simp only [Bool.false_eq_true, if_false, Option.some.injEq] at h
          subst h
          refine ⟨fun k => ?_, rfl, rfl⟩
          by_cases hki : k = i
          · subst hki
            refine ⟨by simp [hk], by simp, by simp, by simp, by simp, ?_, fun _ => by simp⟩
            cases flag <;> simp [Flags.orNotify]
          · simp [St.upd, hki]
        · simp only [if_true, Option.some.injEq] at h
          subst h
          exact NotifyFrame.rfl_self _
    · intro st ds flag st' h
      cases ds with
      | nil =>
        simp only [notify_list, Option.some.injEq] at h
        subst h
        exact NotifyFrame.rfl_self _
      | cons d rest =>
        unfold notify_list at h
        rcases hn : notify f st d flag with _ | stm <;> rw [hn] at h
        · simp at h
        · exact NotifyFrame.trans (ih.1 _ _ _ _ hn) (ih.2 _ _ _ _ h)

theorem notify_marks (fuel : Nat) (st : St) (i : Nat) (flag : NFlag) (st' : St)
    (h : notify fuel st i flag = some st') (hk : (st.nodes i).kind ≠ NKind.sig) :
    (st'.nodes i).flags.notified = true ∨ (st'.nodes i).flags.running = true := by
  cases fuel with
  | zero => simp [notify] at h
  | succ f =>
    unfold notify at h
    rcases hk2 : (st.nodes i).kind with _ | _ | _ <;> simp only [hk2] at h
    case sig => exact absurd hk2 hk
    case comp =>
      rcases hb : ((st.nodes i).flags.notified || (st.nodes i).flags.running) with _ | _ <;>
          rw [hb] at h
      · simp only [Bool.false_eq_true, if_false] at h
        have hfr := (notify_frame_all f).2 _ _ _ _ h
        exact Or.inl ((hfr.1 i).2.2.2.2.2.2 (by simp))
      · simp only [if_true, Option.some.injEq] at h
        subst h
        rcases Bool.or_eq_true_iff.mp hb with h1 | h1
        · exact Or.inl h1
        · exact Or.inr h1
    case eff =>
      rcases hb : ((st.nodes i).flags.notified || (st.nodes i).flags.running) with _ | _ <;>
          rw [hb] at h
      · simp only [Bool.false_eq_true, if_false, Option.some.injEq] at h
        subst h
        exact Or.inl (by simp)
      · simp only [if_true, Option.some.injEq] at h
        subst h
        rcases Bool.or_eq_true_iff.mp hb with h1 | h1
        · exact Or.inl h1
        · exact Or.inr h1

theorem notify_list_marks (fuel : Nat) : ∀ st ds flag st',
    notify_list fuel st ds flag = some st' →
    (∀ d ∈ ds, (st.nodes d).kind ≠ NKind.sig) →
    ∀ d ∈ ds, (st'.nodes d).flags.notified = true ∨ (st'.nodes d).flags.running = true := by
  induction fuel with
  | zero =>
    intro st ds flag st' h hkinds d hd
    cases ds with
    | nil => simp at hd
    | cons d0 rest => simp [notify_list] at h
  | succ f ih =>
    intro st ds flag st' h hkinds d hd
    cases ds with
    | nil => simp at hd
    | cons d0 rest =>
      unfold notify_list at h
      rcases hn : notify f st d0 flag with _ | stm <;> rw [hn] at h
      · simp at h
      · rcases List.mem_cons.mp hd with hd0 | hdrest
        · subst hd0
          have hm := notify_marks f st d flag stm hn (hkinds d (List.mem_cons_self _ _))
          have hfr := (notify_frame_all f).2 _ _ _ _ h
          rcases hm with hm | hm
          · exact Or.inl ((hfr.1 d).2.2.2.2.2.2 hm)
          · exact Or.inr (((hfr.1 d).2.2.2.2.2.1).trans hm)
        · have hfr0 := (notify_frame_all f).1 _ _ _ _ hn
          refine ih stm rest flag st' h ?_ d hdrest
          intro x hx
          rw [(hfr0.1 x).1]
          exact hkinds x (List.mem_cons_of_mem _ hx)


@[simp]
theorem set_mid_nodes (st : St) (i : Nat) (v : Int) (j : Nat) :
    (set_mid st i v).nodes j =
      if j = i then { st.nodes i with epoch := st.write_clock + 1, value := v }
      else st.nodes j := rfl

@[simp]
theorem set_mid_batch_iteration (st : St) (i : Nat) (v : Int) :
    (set_mid st i v).batch_iteration = st.batch_iteration := rfl

@[simp]
theorem set_mid_batch_depth (st : St) (i : Nat) (v : Int) :
    (set_mid st i v).batch_depth = st.batch_depth := rfl

@[simp]
theorem set_mid_batched_effect (st : St) (i : Nat) (v : Int) :
    (set_mid st i v).batched_effect = st.batched_effect := rfl

@[simp]
theorem set_mid_write_clock (st : St) (i : Nat) (v : Int) :
    (set_mid st i v).write_clock = st.write_clock + 1 := rfl

/-- C4: `Signal`'s `set value`.  (1) Writing a value identical (strict
equality) to the current one is a complete no-op: the state is returned
untouched.  (2) When the value differs but `batch_iteration ≥ 100`, the
value is stored and `w_epoch = ++write_clock` is stamped, but notification
is skipped — the batch queue head is untouched.  (3) When the value differs
and `batch_iteration < 100`, the write stamps `w_epoch = ++write_clock`,
stores the value and, inside a batch scope (depth +1 around the loop,
released by the trailing `end_batch`), calls `_notify(DIRTY)` on every
subscriber in `dependants` in order; afterwards every non-`Signal`
subscriber is `NOTIFIED` (or was `RUNNING`, the self-notification guard). -/
theorem C4_signal_set (fuel : Nat) (st : St) (i : Nat) (v : Int) :
    ((st.nodes i).value = v → signal_set (fuel + 1) st i v = some (st, .ok ())) ∧
    ((st.nodes i).value ≠ v → ¬ st.batch_iteration < 100 →
      signal_set (fuel + 1) st i v = some (set_mid st i v, .ok ()) ∧
      (set_mid st i v).batched_effect = st.batched_effect ∧
      ((set_mid st i v).nodes i).value = v ∧
      ((set_mid st i v).nodes i).epoch = st.write_clock + 1 ∧
      (set_mid st i v).write_clock = st.write_clock + 1) ∧
    ((st.nodes i).value ≠ v → st.batch_iteration < 100 → 1 ≤ st.batch_depth →
      ∀ g st2, fuel = g + 1 →
      notify_list fuel (push_batch (set_mid st i v))
          (((set_mid st i v).nodes i).dependants) NFlag.dirty = some st2 →
      signal_set (fuel + 1) st i v =
          some ({ st2 with batch_depth := st2.batch_depth - 1 }, .ok ()) ∧
      st2.batch_depth = st.batch_depth + 1 ∧
      (st2.nodes i).value = v ∧ (st2.nodes i).epoch = st.write_clock + 1 ∧
      st2.write_clock = st.write_clock + 1 ∧
      ((∀ d ∈ (st.nodes i).dependants, (st.nodes d).kind ≠ NKind.sig) →
        ∀ d ∈ (st.nodes i).dependants,
          (st2.nodes d).flags.notified = true ∨ (st2.nodes d).flags.running = true)) := by
  refine ⟨?_, ?_, ?_⟩
  · intro he
    unfold signal_set
    rw [if_neg (by simp [he])]
  · intro hne hit
    refine ⟨?_, rfl, by simp, by simp, rfl⟩
    unfold signal_set
    rw [if_pos hne]
    rw [if_neg (show ¬ (set_mid st i v).batch_iteration < 100 from by simpa using hit)]
  · intro hne hit hdepth g st2 hg hnl
    have hfr := (notify_frame_all fuel).2 _ _ _ _ hnl
    have hdep2 : st2.batch_depth = st.batch_depth + 1 := by
      rw [hfr.2.1]
      simp [push_batch]
    refine ⟨?_, hdep2, ?_, ?_, ?_, ?_⟩
    · unfold signal_set
      rw [if_pos hne]
      rw [if_pos (show (set_mid st i v).batch_iteration < 100 from by simpa using hit)]
      simp only [hnl]
      subst hg
      unfold end_batch
      rw [if_pos (show st2.batch_depth > 1 from by omega)]
    · rw [(hfr.1 i).2.1]
      simp [push_batch]
    · rw [(hfr.1 i).2.2.1]
      simp [push_batch]
    · rw [hfr.2.2]
      simp [push_batch]
    · intro hkinds d hd
      refine notify_list_marks fuel _ _ _ _ hnl ?_ d (by simpa using hd)
      intro x hx
      have hx' : x ∈ (st.nodes i).dependants := by simpa using hx
      have : (((push_batch (set_mid st i v)) : St).nodes x).kind =
          (st.nodes x).kind := by
        by_cases hxi : x = i <;> simp [push_batch, hxi]
      rw [this]
      exact hkinds x hx'

/-- A signal (node 0, value 1) with one effect subscriber (node 1), inside
one enclosing batch scope. -/
def set_example_st : St :=
  { init_st with
    batch_depth := 1,
    nodes := fun j =>
      if j = 0 then { mkSignal 1 with dependants := [1] }
      else if j = 1 then mkEffect (Expr.lit 0) 0
      else mkSignal 0 }

/-- Witness for C4: the equal write is a complete no-op; with the iteration
guard tripped the value/epoch update happens but nothing is queued; the
normal write stamps epoch 1, marks the subscribing effect `DIRTY|NOTIFIED`
and queues it. -/
theorem C4_signal_set_witness :
    signal_set 5 set_example_st 0 1 = some (set_example_st, .ok ()) ∧
    (signal_set 5 { set_example_st with batch_iteration := 100 } 0 2).map
        (fun p => ((p.1.nodes 0).value, (p.1.nodes 0).epoch, p.1.batched_effect, p.2)) =
      some (2, 1, none, .ok ()) ∧
    (signal_set 5 set_example_st 0 2).map
        (fun p => ((p.1.nodes 0).value, (p.1.nodes 0).epoch,
          (p.1.nodes 1).flags.notified, (p.1.nodes 1).flags.dirty,
          p.1.batched_effect, p.1.batch_depth, p.2)) =
      some (2, 1, true, true, some 1, 1, .ok ()) := by
  refine ⟨?_, ?_, ?_⟩
  · exact (C4_signal_set 4 set_example_st 0 1).1 rfl
  · rw [((C4_signal_set 4 { set_example_st with batch_iteration := 100 } 0 2).2.1
      (by decide) (by decide)).1]
    rfl
  · have h := (C4_signal_set 4 set_example_st 0 2).2.2 (by decide) (by decide)
      (by decide) 3 _ rfl rfl
    rw [h.1]
    rfl

/-!  Projection lemmas for the refresh helpers. -/

@[simp]
theorem clear_notified_nodes (st : St) (i j : Nat) :
    (clear_notified st i).nodes j =
      if j = i then
        { st.nodes i with flags := { (st.nodes i).flags with notified := false } }
      else st.nodes j := rfl

@[simp]
theorem clear_notified_write_clock (st : St) (i : Nat) :
    (clear_notified st i).write_clock = st.write_clock := rfl

@[simp]
theorem clear_notified_compute_count (st : St) (i : Nat) :
    (clear_notified st i).compute_count = st.compute_count := rfl

@[simp]
theorem clear_notified_eval_listener (st : St) (i : Nat) :
    (clear_notified st i).eval_listener = st.eval_listener := rfl

@[simp]
theorem comp_mark_running_nodes (st : St) (i : Nat) (fl : Flags) (j : Nat) :
    (comp_mark_running st i fl).nodes j =
      if j = i then
        { st.nodes i with
          flags := { fl with dirty := false, maybe_dirty := false, running := true },
          realm_write_epoch := st.write_clock }
      else st.nodes j := rfl

@[simp]
theorem comp_mark_running_write_clock (st : St) (i : Nat) (fl : Flags) :
    (comp_mark_running st i fl).write_clock = st.write_clock := rfl

@[simp]
theorem comp_mark_running_eval_listener (st : St) (i : Nat) (fl : Flags) :
    (comp_mark_running st i fl).eval_listener = st.eval_listener := rfl

@[simp]
theorem comp_mark_running_eval_untracked (st : St) (i : Nat) (fl : Flags) :
    (comp_mark_running st i fl).eval_untracked_sources = st.eval_untracked_sources := rfl

@[simp]
theorem comp_mark_running_eval_sources_index (st : St) (i : Nat) (fl : Flags) :
    (comp_mark_running st i fl).eval_sources_index = st.eval_sources_index := rfl

@[simp]
theorem comp_commit_nodes (st : St) (i : Nat) (v : Int) (b : Bool) (j : Nat) :
    (comp_commit st i v b).nodes j =
      if j = i then
        { st.nodes i with
          value := v,
          flags := { (st.nodes i).flags with has_error := b },
          epoch := st.write_clock + 1, realm_write_epoch := st.write_clock + 1 }
      else st.nodes j := rfl

@[simp]
theorem comp_commit_write_clock (st : St) (i : Nat) (v : Int) (b : Bool) :
    (comp_commit st i v b).write_clock = st.write_clock + 1 := rfl

@[simp]
theorem comp_commit_eval_listener (st : St) (i : Nat) (v : Int) (b : Bool) :
    (comp_commit st i v b).eval_listener = st.eval_listener := rfl

@[simp]
theorem comp_commit_eval_untracked (st : St) (i : Nat) (v : Int) (b : Bool) :
    (comp_commit st i v b).eval_untracked_sources = st.eval_untracked_sources := rfl

@[simp]
theorem comp_commit_eval_sources_index (st : St) (i : Nat) (v : Int) (b : Bool) :
    (comp_commit st i v b).eval_sources_index = st.eval_sources_index := rfl

@[simp]
theorem comp_commit_compute_count (st : St) (i : Nat) (v : Int) (b : Bool) :
    (comp_commit st i v b).compute_count = st.compute_count := rfl

theorem is_stale_dirty (f : Nat) (st : St) (i : Nat) (flags : Flags)
    (h : flags.dirty = true) : is_stale (f + 1) st i flags = some (st, .ok true) := by
  unfold is_stale
  rw [h]
  rfl

@[simp]
theorem enter_compute_nodes (st : St) (i j : Nat) :
    (enter_compute st i).nodes j =
      if j = i then { st.nodes i with context_epoch := st.read_clock }
      else st.nodes j := rfl

@[simp]
theorem enter_compute_eval_listener (st : St) (i : Nat) :
    (enter_compute st i).eval_listener = some i := rfl

@[simp]
theorem enter_compute_eval_untracked (st : St) (i : Nat) :
    (enter_compute st i).eval_untracked_sources = none := rfl

@[simp]
theorem enter_compute_eval_sources_index (st : St) (i : Nat) :
    (enter_compute st i).eval_sources_index = 0 := rfl

@[simp]
theorem enter_compute_write_clock (st : St) (i : Nat) :
    (enter_compute st i).write_clock = st.write_clock := rfl

@[simp]
theorem enter_compute_compute_count (st : St) (i j : Nat) :
    (enter_compute st i).compute_count j =
      if j = i then st.compute_count j + 1 else st.compute_count j := rfl

@[simp]
theorem clear_notified_eval_untracked (st : St) (i : Nat) :
    (clear_notified st i).eval_untracked_sources = st.eval_untracked_sources := rfl

@[simp]
theorem clear_notified_eval_sources_index (st : St) (i : Nat) :
    (clear_notified st i).eval_sources_index = st.eval_sources_index := rfl

@[simp]
theorem comp_mark_running_compute_count (st : St) (i : Nat) (fl : Flags) :
    (comp_mark_running st i fl).compute_count = st.compute_count := rfl

/-- Under a `DIRTY`, non-`RUNNING` computed whose realm epoch is stale, the
refresh reaches the compute invocation: the remaining behaviour is the
dispatch on the body's outcome (lines 383-416 of the source). -/
theorem refresh_comp_entry (fuel : Nat) (st : St) (c : Nat)
    (h1 : (st.nodes c).kind = NKind.comp)
    (h2 : (st.nodes c).flags.dirty = true)
    (h3 : (st.nodes c).flags.running = false)
    (h4 : (st.nodes c).realm_write_epoch ≠ st.write_clock) :
    refresh (fuel + 2) st c =
      match eval (fuel + 1)
          (enter_compute (comp_mark_running (clear_notified st c) c
            { (st.nodes c).flags with notified := false }) c)
          ((st.nodes c).value) ((st.nodes c).compute) with
      | none => none
      | some (st2, .ok v) =>
        if (st.nodes c).flags.has_error = true ∨ (st.nodes c).value ≠ v ∨
            (st2.nodes c).epoch = -1 then
          comp_finish (fuel + 1) st.eval_listener st.eval_untracked_sources
            st.eval_sources_index (comp_commit st2 c v false) c true
        else
          comp_finish (fuel + 1) st.eval_listener st.eval_untracked_sources
            st.eval_sources_index st2 c false
      | some (st2, .error e) =>
        comp_finish (fuel + 1) st.eval_listener st.eval_untracked_sources
          st.eval_sources_index (comp_commit st2 c e true) c true := by
  unfold refresh
  simp only [h1]
  rw [if_neg (by
    simp only [clear_notified_write_clock]
    push_neg
    refine ⟨h4, ?_, by simp [h3]⟩
    intro _ hd
    rw [show ({ (st.nodes c).flags with notified := false } : Flags).dirty =
      (st.nodes c).flags.dirty from rfl, h2] at hd
    simp at hd)]
  by_cases hep : (((comp_mark_running (clear_notified st c) c
      { (st.nodes c).flags with notified := false }).nodes c).epoch > -1)
  · rw [if_pos hep, is_stale_dirty fuel _ c _ (by simp [h2])]
    simp
  · rw [if_neg hep]
    simp

/-- When the run tracked nothing (no buffer, cursor 0, no previous deps),
the end-of-run reconciliation leaves the heap alone and `comp_finish` only
restores the outer context and clears `RUNNING`. -/
theorem comp_finish_noop (f : Nat) (pl : Option Nat) (ps : Option (List Nat))
    (pidx : Nat) (s : St) (c : Nat) (stale : Bool)
    (hl : s.eval_listener = some c) (hu : s.eval_untracked_sources = none)
    (hi : s.eval_sources_index = 0) (hd : (s.nodes c).dependencies = []) :
    comp_finish f pl ps pidx s c stale =
      some ((({ s with
          eval_listener := pl, eval_untracked_sources := ps,
          eval_sources_index := pidx } : St)).upd c
        { s.nodes c with flags := { (s.nodes c).flags with running := false } },
        Except.ok stale) := by
  unfold comp_finish cleanup_context
  rw [hl, hu]
  simp only [hi, hd, List.length_nil, Nat.lt_irrefl, if_false]

/-- `Computed._refresh`'s realm-epoch fast path: when nothing in the realm
has changed since the last refresh (`realm_write_epoch == write_clock`),
the refresh only clears `NOTIFIED` and reports "unchanged" — it never
invokes the compute function. -/
theorem refresh_realm_fast (f : Nat) (st : St) (i : Nat)
    (hk : (st.nodes i).kind = NKind.comp)
    (hr : (st.nodes i).realm_write_epoch = st.write_clock) :
    refresh (f + 1) st i = some (clear_notified st i, .ok false) := by
  unfold refresh
  simp only [hk]
  rw [if_pos (Or.inl (by simpa using hr))]

/-- `Computed.peek` on an error-cached, realm-fresh computed: the refresh
takes the fast path and the stored error value is re-raised. -/
theorem peek_error_fast (g : Nat) (s : St) (c : Nat)
    (hk : (s.nodes c).kind = NKind.comp)
    (hr : (s.nodes c).realm_write_epoch = s.write_clock)
    (he : (s.nodes c).flags.has_error = true) :
    peek_fn (g + 2) s c = some (clear_notified s c, .error (s.nodes c).value) := by
  unfold peek_fn
  simp only [hk]
  rw [refresh_realm_fast g s c hk hr]
  simp [he]

/-- Packaged form of `comp_finish_noop`: the final state exists and is the
input with the outer context restored and `RUNNING` cleared on node `c`. -/
theorem comp_finish_noop_props (f : Nat) (pl : Option Nat) (ps : Option (List Nat))
    (pidx : Nat) (s : St) (c : Nat) (stale : Bool)
    (hl : s.eval_listener = some c) (hu : s.eval_untracked_sources = none)
    (hi : s.eval_sources_index = 0) (hd : (s.nodes c).dependencies = []) :
    ∃ S, comp_finish f pl ps pidx s c stale = some (S, .ok stale) ∧
      S.nodes c = { s.nodes c with flags := { (s.nodes c).flags with running := false } } ∧
      (∀ j, j ≠ c → S.nodes j = s.nodes j) ∧
      S.write_clock = s.write_clock ∧
      S.compute_count = s.compute_count ∧
      S.eval_listener = pl := by
  refine ⟨_, comp_finish_noop f pl ps pidx s c stale hl hu hi hd,
    by simp, ?_, by simp, by simp, by simp⟩
  intro j hj
  simp [hj]

/-- C5: when a `Computed`'s compute function throws during refresh, the
thrown value is stored as the cached value, `HAS_ERROR` is set, `w_epoch`
and `realm_write_epoch` are stamped with `++write_clock`, and the refresh
reports the value as changed; every subsequent `peek` re-raises the stored
error without invoking the compute function again (the realm-epoch fast
path), until a later refresh whose compute returns normally clears
`HAS_ERROR` and stores the new value (second conjunct). -/
theorem C5_computed_error_caching
    (fuel : Nat) (st : St) (c : Nat) (e v : Int) (st2 : St) :
    ((st.nodes c).kind = NKind.comp →
     (st.nodes c).flags.dirty = true →
     (st.nodes c).flags.running = false →
     (st.nodes c).realm_write_epoch ≠ st.write_clock →
     eval (fuel + 1)
        (enter_compute (comp_mark_running (clear_notified st c) c
          { (st.nodes c).flags with notified := false }) c)
        ((st.nodes c).value) ((st.nodes c).compute) = some (st2, .error e) →
     st2.eval_listener = some c →
     st2.eval_untracked_sources = none →
     st2.eval_sources_index = 0 →
     (st2.nodes c).dependencies = [] →
     (st2.nodes c).kind = NKind.comp →
     ∃ st3, refresh (fuel + 2) st c = some (st3, .ok true) ∧
       ((st3.nodes c).value = e ∧
        (st3.nodes c).flags.has_error = true ∧
        (st3.nodes c).flags.running = false ∧
        (st3.nodes c).epoch = st2.write_clock + 1 ∧
        (st3.nodes c).realm_write_epoch = st2.write_clock + 1 ∧
        st3.write_clock = st2.write_clock + 1 ∧
        (∀ g, ∃ st4, peek_fn (g + 2) st3 c = some (st4, .error e) ∧
          (st4.compute_count c = st3.compute_count c ∧
           (st4.nodes c).value = e ∧ (st4.nodes c).flags.has_error = true)))) ∧
    ((st.nodes c).kind = NKind.comp →
     (st.nodes c).flags.dirty = true →
     (st.nodes c).flags.running = false →
     (st.nodes c).realm_write_epoch ≠ st.write_clock →
     (st.nodes c).flags.has_error = true →
     eval (fuel + 1)
        (enter_compute (comp_mark_running (clear_notified st c) c
          { (st.nodes c).flags with notified := false }) c)
        ((st.nodes c).value) ((st.nodes c).compute) = some (st2, .ok v) →
     st2.eval_listener = some c →
     st2.eval_untracked_sources = none →
     st2.eval_sources_index = 0 →
     (st2.nodes c).dependencies = [] →
     ∃ st3, refresh (fuel + 2) st c = some (st3, .ok true) ∧
       ((st3.nodes c).value = v ∧
        (st3.nodes c).flags.has_error = false ∧
        (st3.nodes c).epoch = st2.write_clock + 1 ∧
        st3.write_clock = st2.write_clock + 1)) := by
  constructor
  · intro h1 h2 h3 h4 heval h5 h6 h7 h8 h9
    obtain ⟨S, hS, hSc, hSother, hSclock, hScount, hSl⟩ :=
      comp_finish_noop_props (fuel + 1) st.eval_listener st.eval_untracked_sources
        st.eval_sources_index (comp_commit st2 c e true) c true
        (by simp [h5]) (by simp [h6]) (by simp [h7]) (by simp [h8])
    have hmain : refresh (fuel + 2) st c = some (S, .ok true) := by
      rw [refresh_comp_entry fuel st c h1 h2 h3 h4, heval]
      exact hS
    have hv : (S.nodes c).value = e := by
      rw [hSc]
      simp
    have hhe : (S.nodes c).flags.has_error = true := by
      rw [hSc]
      simp
    have hke : (S.nodes c).kind = NKind.comp := by
      rw [hSc]
      simp [h9]
    have hre : (S.nodes c).realm_write_epoch = S.write_clock := by
      rw [hSc, hSclock]
      simp
    refine ⟨S, hmain, hv, hhe, by rw [hSc], by rw [hSc]; simp, by rw [hSc]; simp,
      by rw [hSclock]; simp, ?_⟩
    intro g
    have hpk := peek_error_fast g S c hke hre hhe
    rw [hv] at hpk
    refine ⟨clear_notified S c, hpk, by simp, by simp [hv], by simp [hhe]⟩
  · intro h1 h2 h3 h4 herr heval h5 h6 h7 h8
    obtain ⟨S, hS, hSc, hSother, hSclock, hScount, hSl⟩ :=
      comp_finish_noop_props (fuel + 1) st.eval_listener st.eval_untracked_sources
        st.eval_sources_index (comp_commit st2 c v false) c true
        (by simp [h5]) (by simp [h6]) (by simp [h7]) (by simp [h8])
    have hmain : refresh (fuel + 2) st c = some (S, .ok true) := by
      rw [refresh_comp_entry fuel st c h1 h2 h3 h4, heval]
      show (if (st.nodes c).flags.has_error = true ∨ (st.nodes c).value ≠ v ∨
          (st2.nodes c).epoch = -1 then
        comp_finish (fuel + 1) st.eval_listener st.eval_untracked_sources
          st.eval_sources_index (comp_commit st2 c v false) c true
      else comp_finish (fuel + 1) st.eval_listener st.eval_untracked_sources
          st.eval_sources_index st2 c false) = some (S, Except.ok true)
      rw [if_pos (Or.inl herr)]
      exact hS
    refine ⟨S, hmain, by rw [hSc]; simp, by rw [hSc]; simp, by rw [hSc]; simp,
      by rw [hSclock]; simp⟩

/-- A fresh computed (node 1) whose body throws `42`. -/
def err_example_st : St :=
  { init_st with nodes := fun j =>
      if j = 1 then mkComputed (Expr.throwE (Expr.lit 42)) 0 else mkSignal 0 }

/-- A computed (node 1) carrying a cached error `42` (`HAS_ERROR|DIRTY`)
whose body now returns `7` normally. -/
def recov_example_st : St :=
  { init_st with nodes := fun j =>
      if j = 1 then
        { mkComputed (Expr.lit 7) 0 with
          value := 42,
          flags := { noFlags with dirty := true, has_error := true } }
      else mkSignal 0 }

/-- Witness for C5: refreshing the throwing computed caches `42` with
`HAS_ERROR` and epoch 1 and reports "changed"; an immediately following
`peek` re-raises `42` with the cache intact; and a successful recomputation
clears `HAS_ERROR` and stores the new value. -/
theorem C5_computed_error_caching_witness :
    (refresh 8 err_example_st 1).map (fun p =>
      ((p.1.nodes 1).value, (p.1.nodes 1).flags.has_error, (p.1.nodes 1).epoch, p.2)) =
      some (42, true, 1, .ok true) ∧
    ((refresh 8 err_example_st 1).bind (fun p => peek_fn 8 p.1 1)).map (fun p =>
      (p.2, (p.1.nodes 1).value, (p.1.nodes 1).flags.has_error)) =
      some (.error 42, 42, true) ∧
    (refresh 8 recov_example_st 1).map (fun p =>
      ((p.1.nodes 1).value, (p.1.nodes 1).flags.has_error, p.2)) =
      some (7, false, .ok true) := by
  obtain ⟨st3, hmain, hv, hhe, hrun, hep, hrealm, hclock, hpk⟩ :=
    (C5_computed_error_caching 6 err_example_st 1 42 0 _).1
      rfl rfl rfl (by decide) rfl rfl rfl rfl rfl rfl
  obtain ⟨st4, hpk4, hc4, hv4, he4⟩ := hpk 6
  constructor
  · rw [hmain]
    simp only [Option.map_some']
    rw [hv, hhe, hep]
    simp [err_example_st, init_st]
  · constructor
    · rw [hmain]
      simp only [Option.bind_some, Option.some_bind]
      rw [hpk4]
      simp only [Option.map_some']
      rw [hv4, he4]
    · obtain ⟨st5, hmain5, hv5, he5, hep5, hclock5⟩ :=
        (C5_computed_error_caching 6 recov_example_st 1 0 7 _).2
          rfl rfl rfl (by decide) rfl rfl rfl rfl rfl rfl
      rw [hmain5]
      simp only [Option.map_some']
      rw [hv5, he5]

/-- `Computed._refresh`'s subscribed-and-clean fast path: a `TRACKING` node
with neither `DIRTY` nor `MAYBE_DIRTY` returns "unchanged" immediately. -/
theorem refresh_tracking_fast (f : Nat) (st : St) (i : Nat)
    (hk : (st.nodes i).kind = NKind.comp)
    (ht : (st.nodes i).flags.tracking = true)
    (hd : (st.nodes i).flags.dirty = false)
    (hm : (st.nodes i).flags.maybe_dirty = false) :
    refresh (f + 1) st i = some (clear_notified st i, .ok false) := by
  unfold refresh
  simp only [hk]
  rw [if_pos (Or.inr (Or.inl ⟨by simp [ht], by simp [hd], by simp [hm]⟩))]

theorem is_stale_clean (f : Nat) (st : St) (i : Nat) (flags : Flags)
    (hd : flags.dirty = false) (hm : flags.maybe_dirty = false) :
    is_stale (f + 1) st i flags = some (st, .ok false) := by
  unfold is_stale
  rw [hd, hm]
  rfl

/-- One `peek` of a clean (no `DIRTY`/`MAYBE_DIRTY`/`RUNNING`), previously
computed node: the cached value (or cached error) is returned and the
compute function is not invoked; cleanliness, the cache and the epoch are
preserved. -/
theorem clean_peek_step (g : Nat) (s : St) (c : Nat)
    (hk : (s.nodes c).kind = NKind.comp)
    (hd : (s.nodes c).flags.dirty = false)
    (hm : (s.nodes c).flags.maybe_dirty = false)
    (hr : (s.nodes c).flags.running = false)
    (he : (s.nodes c).epoch > -1) :
    ∃ s', peek_fn (g + 3) s c = some (s',
        if (s.nodes c).flags.has_error = true then Except.error (s.nodes c).value
        else Except.ok (s.nodes c).value) ∧
      (s'.nodes c).value = (s.nodes c).value ∧
      (s'.nodes c).flags.has_error = (s.nodes c).flags.has_error ∧
      (s'.nodes c).kind = NKind.comp ∧
      (s'.nodes c).flags.dirty = false ∧
      (s'.nodes c).flags.maybe_dirty = false ∧
      (s'.nodes c).flags.running = false ∧
      (s'.nodes c).epoch = (s.nodes c).epoch ∧
      s'.compute_count c = s.compute_count c := by
  by_cases hrc : (s.nodes c).realm_write_epoch = s.write_clock
  · refine ⟨clear_notified s c, ?_, by simp, by simp, by simp [hk], by simp [hd],
      by simp [hm], by simp [hr], by simp, by simp⟩
    unfold peek_fn
    simp only [hk]
    rw [refresh_realm_fast (g + 1) s c hk hrc]
    simp
  · by_cases htr : (s.nodes c).flags.tracking = true
    · refine ⟨clear_notified s c, ?_, by simp, by simp, by simp [hk], by simp [hd],
        by simp [hm], by simp [hr], by simp, by simp⟩
      unfold peek_fn
      simp only [hk]
      rw [refresh_tracking_fast (g + 1) s c hk htr hd hm]
      simp
    · have htr' : (s.nodes c).flags.tracking = false := by
        cases hb : (s.nodes c).flags.tracking
        · rfl
        · exact absurd hb htr
      have hmain : refresh (g + 2) s c =
          some ((comp_mark_running (clear_notified s c) c
              { (s.nodes c).flags with notified := false }).upd c
            { (comp_mark_running (clear_notified s c) c
                { (s.nodes c).flags with notified := false }).nodes c with
              flags := { ((comp_mark_running (clear_notified s c) c
                { (s.nodes c).flags with notified := false }).nodes c).flags with
                running := false } }, .ok false) := by
        unfold refresh
        simp only [hk]
        rw [if_neg (by
          push_neg
          refine ⟨hrc, ?_, by simp [hr]⟩
          intro hcon
          rw [show ({ (s.nodes c).flags with notified := false } : Flags).tracking =
            (s.nodes c).flags.tracking from rfl, htr'] at hcon
          simp at hcon)]
        rw [if_pos (by simpa using he)]
        rw [is_stale_clean g _ c _ (by simp [hd]) (by simp [hm])]
      have hpeek : peek_fn (g + 3) s c = some ((comp_mark_running (clear_notified s c) c
          { (s.nodes c).flags with notified := false }).upd c
          { (comp_mark_running (clear_notified s c) c
              { (s.nodes c).flags with notified := false }).nodes c with
            flags := { ((comp_mark_running (clear_notified s c) c
              { (s.nodes c).flags with notified := false }).nodes c).flags with
              running := false } },
          if (s.nodes c).flags.has_error = true then Except.error (s.nodes c).value
          else Except.ok (s.nodes c).value) := by
        unfold peek_fn
        simp only [hk]
        rw [hmain]
        simp
      refine ⟨_, hpeek, by simp, by simp, by simp [hk], by simp,
        by simp, by simp, by simp, by simp⟩

/-- `n + 1` successive reads (`peek`) of node `c`, returning the last
read's result. -/
def peeks : Nat → Nat → St → Nat → Option (St × Except Int Int)
  | fuel, 0, st, c => peek_fn fuel st c
  | fuel, n + 1, st, c =>
    match peeks fuel n st c with
    | none => none
    | some (st, _) => peek_fn fuel st c

theorem peeks_clean (g : Nat) (c : Nat) : ∀ n s,
    (s.nodes c).kind = NKind.comp →
    (s.nodes c).flags.dirty = false →
    (s.nodes c).flags.maybe_dirty = false →
    (s.nodes c).flags.running = false →
    (s.nodes c).epoch > -1 →
    ∃ s', peeks (g + 3) n s c = some (s',
        if (s.nodes c).flags.has_error = true then Except.error (s.nodes c).value
        else Except.ok (s.nodes c).value) ∧
      (s'.nodes c).value = (s.nodes c).value ∧
      (s'.nodes c).flags.has_error = (s.nodes c).flags.has_error ∧
      (s'.nodes c).kind = NKind.comp ∧
      (s'.nodes c).flags.dirty = false ∧
      (s'.nodes c).flags.maybe_dirty = false ∧
      (s'.nodes c).flags.running = false ∧
      (s'.nodes c).epoch = (s.nodes c).epoch ∧
      s'.compute_count c = s.compute_count c := by
  intro n
  induction n with
  | zero =>
    intro s hk hd hm hr he
    exact clean_peek_step g s c hk hd hm hr he
  | succ m ih =>
    intro s hk hd hm hr he
    obtain ⟨s1, hs1, hv1, he1, hk1, hd1, hm1, hr1, hep1, hc1⟩ := ih s hk hd hm hr he
    obtain ⟨s2, hs2, hv2, he2, hk2, hd2, hm2, hr2, hep2, hc2⟩ :=
      clean_peek_step g s1 c hk1 hd1 hm1 hr1 (by rw [hep1]; exact he)
    refine ⟨s2, ?_, by rw [hv2, hv1], by rw [he2, he1], hk2, hd2, hm2, hr2,
      by rw [hep2, hep1], by rw [hc2, hc1]⟩
    unfold peeks
    rw [hs1]
    show peek_fn (g + 3) s1 c = _
    rw [hs2, he1, hv1]

/-- C6: after a read of a computed leaves it clean (no `DIRTY`,
`MAYBE_DIRTY` or `RUNNING`, epoch stamped), every further read — any number
of them, with no intervening write — returns the same cached outcome,
never invokes the compute function again (the ghost `compute_count` stays
constant, so the whole sequence ran the compute at most as often as the
first read did, i.e. at most once), and leaves the cached value intact; in
particular a second consecutive read never recomputes. -/
theorem C6_computed_purity (f g n : Nat) (st st1 : St) (c : Nat)
    (hk : (st1.nodes c).kind = NKind.comp)
    (h0 : peek_fn f st c = some (st1,
        if (st1.nodes c).flags.has_error = true then Except.error (st1.nodes c).value
        else Except.ok (st1.nodes c).value))
    (hd : (st1.nodes c).flags.dirty = false)
    (hm : (st1.nodes c).flags.maybe_dirty = false)
    (hr : (st1.nodes c).flags.running = false)
    (he : (st1.nodes c).epoch > -1)
    (hcount : st1.compute_count c ≤ st.compute_count c + 1) :
    ∃ st2, peeks (g + 3) n st1 c = some (st2,
        if (st1.nodes c).flags.has_error = true then Except.error (st1.nodes c).value
        else Except.ok (st1.nodes c).value) ∧
      st2.compute_count c = st1.compute_count c ∧
      st2.compute_count c ≤ st.compute_count c + 1 ∧
      (st2.nodes c).value = (st1.nodes c).value := by
  obtain ⟨s', h1, h2, h3, h4, h5, h6, h7, h8, h9⟩ :=
    peeks_clean g c n st1 hk hd hm hr he
  exact ⟨s', h1, h9, by rw [h9]; exact hcount, h2⟩

/-- A fresh computed (node 1) doubling signal 0 (value 3). -/
def purity_example_st : St :=
  { init_st with nodes := fun j =>
      if j = 0 then mkSignal 3
      else if j = 1 then mkComputed (Expr.addE (Expr.readV 0) (Expr.readV 0)) 0
      else mkSignal 0 }

/-- The state after the first read of the computed in `purity_example_st`. -/
def purity_st1 : St :=
  ((peek_fn 10 purity_example_st 1).getD (init_st, .ok 0)).1

/-- Witness for C6: the first read computes `6` (one compute invocation);
the two further reads keep returning `6` with the invocation count still at
one. -/
theorem C6_computed_purity_witness :
    peek_fn 10 purity_example_st 1 = some (purity_st1, Except.ok 6) ∧
    (peeks 10 1 purity_st1 1).map (fun p => (p.2, p.1.compute_count 1)) =
      some (Except.ok 6, 1) := by
  refine ⟨rfl, ?_⟩
  obtain ⟨st2, hpk, hc, hcb, hv⟩ :=
    C6_computed_purity 10 7 1 purity_example_st purity_st1 1
      rfl rfl rfl rfl rfl (by decide) (by decide)
  rw [hpk]
  simp only [Option.map_some']
  rw [hc]
  rfl

@[simp]
theorem eff_enter_nodes (st : St) (i : Nat) (fl : Flags) (j : Nat) :
    (eff_enter st i fl).nodes j =
      if j = i then
        { st.nodes i with
          epoch := st.write_clock, context_epoch := st.read_clock,
          flags := { fl with dirty := false, maybe_dirty := false, running := true } }
      else st.nodes j := rfl

@[simp]
theorem eff_enter_eval_listener (st : St) (i : Nat) (fl : Flags) :
    (eff_enter st i fl).eval_listener = some i := rfl

@[simp]
theorem eff_enter_eval_untracked (st : St) (i : Nat) (fl : Flags) :
    (eff_enter st i fl).eval_untracked_sources = none := rfl

@[simp]
theorem eff_enter_eval_sources_index (st : St) (i : Nat) (fl : Flags) :
    (eff_enter st i fl).eval_sources_index = 0 := rfl

@[simp]
theorem eff_enter_batch_depth (st : St) (i : Nat) (fl : Flags) :
    (eff_enter st i fl).batch_depth = st.batch_depth + 1 := rfl

@[simp]
theorem eff_enter_batched_effect (st : St) (i : Nat) (fl : Flags) :
    (eff_enter st i fl).batched_effect = st.batched_effect := rfl

@[simp]
theorem eff_enter_batch_iteration (st : St) (i : Nat) (fl : Flags) :
    (eff_enter st i fl).batch_iteration = st.batch_iteration := rfl

@[simp]
theorem eff_enter_write_clock (st : St) (i : Nat) (fl : Flags) :
    (eff_enter st i fl).write_clock = st.write_clock := rfl

@[simp]
theorem eff_enter_read_clock (st : St) (i : Nat) (fl : Flags) :
    (eff_enter st i fl).read_clock = st.read_clock + 1 := rfl

@[simp]
theorem eff_enter_runlog (st : St) (i : Nat) (fl : Flags) :
    (eff_enter st i fl).runlog = st.runlog ++ [i] := rfl

@[simp]
theorem eff_enter_compute_count (st : St) (i : Nat) (fl : Flags) (j : Nat) :
    (eff_enter st i fl).compute_count j =
      if j = i then st.compute_count j + 1 else st.compute_count j := rfl

theorem eval_lit (f : Nat) (st : St) (p k : Int) :
    eval (f + 1) st p (Expr.lit k) = some (st, .ok k) := by
  unfold eval
  rfl

theorem cleanup_context_noop (f : Nat) (s : St) (c : Nat)
    (hl : s.eval_listener = some c) (hu : s.eval_untracked_sources = none)
    (hi : s.eval_sources_index = 0) (hd : (s.nodes c).dependencies = []) :
    cleanup_context f s = some s := by
  unfold cleanup_context
  rw [hl, hu]
  simp [hi, hd]

/-- The linked-list order of the batched-effect queue starting at a given
head pointer. -/
def chain : Nat → St → Option Nat → Option (List Nat)
  | _, _, none => some []
  | 0, _, some _ => none
  | f + 1, st, some e => (chain f st (st.nodes e).next_batched).map (e :: ·)

/-- A queued effect that tracks nothing and whose body is a bare literal:
running it through `Effect._refresh` appends the effect to the run log and
leaves every other node, the queue head and the batch counters untouched. -/
theorem refresh_trivial_eff (f : Nat) (st : St) (e : Nat) (k : Int)
    (hk : (st.nodes e).kind = NKind.eff)
    (hr : (st.nodes e).flags.running = false)
    (hdis : (st.nodes e).flags.disposed = false)
    (hdeps : (st.nodes e).dependencies = [])
    (hcmp : (st.nodes e).compute = Expr.lit k)
    (hdep : 1 ≤ st.batch_depth) :
    ∃ T, refresh (f + 2) st e = some (T, Except.ok false) ∧
      (∀ j, j ≠ e → T.nodes j = st.nodes j) ∧
      T.batched_effect = st.batched_effect ∧
      T.batch_depth = st.batch_depth ∧
      T.batch_iteration = st.batch_iteration ∧
      T.runlog = st.runlog ++ [e] := by
  unfold refresh
  simp only [hk]
  rw [if_neg (by simp [hr])]
  rw [show ((eff_enter st e (st.nodes e).flags).nodes e).compute = Expr.lit k from by
    simp [hcmp]]
  rw [eval_lit]
  dsimp only
  rw [cleanup_context_noop (f + 1) _ e (by simp) (by simp) (by simp) (by simp [hdeps])]
  dsimp only
  rw [if_neg (by simp [hdis])]
  dsimp only
  unfold end_batch
  rw [if_pos (by simp; omega)]
  dsimp only
  refine ⟨_, rfl, ?_, ?_, ?_, ?_, ?_⟩
  · intro j hj
    simp [St.upd_nodes, hj]
  · simp
  · simp
  · simp
  · simp

/-- The singly-linked batched-effect queue starting at `cur` visits exactly
the nodes of `L`, in order, following `next_batched` links. -/
def queue_is (st : St) : Option Nat → List Nat → Prop
  | cur, [] => cur = none
  | cur, e :: es => cur = some e ∧ queue_is st (st.nodes e).next_batched es

theorem queue_is_congr (st st' : St) : ∀ (L : List Nat) (cur : Option Nat),
    (∀ x ∈ L, st'.nodes x = st.nodes x) → queue_is st cur L → queue_is st' cur L := by
  intro L
  induction L with
  | nil => intro cur _ h; exact h
  | cons e es ih =>
    intro cur hfr h
    obtain ⟨h1, h2⟩ := h
    refine ⟨h1, ?_⟩
    rw [hfr e (by simp)]
    exact ih _ (fun x hx => hfr x (by simp [hx])) h2

/-- An undisposed, not-running, `DIRTY` effect with no dependencies whose
body is a bare literal. -/
def trivial_eff (st : St) (e : Nat) : Prop :=
  (st.nodes e).kind = NKind.eff ∧
  (st.nodes e).flags.running = false ∧
  (st.nodes e).flags.disposed = false ∧
  (st.nodes e).flags.dirty = true ∧
  (st.nodes e).dependencies = [] ∧
  ∃ k, (st.nodes e).compute = Expr.lit k

theorem trivial_eff_congr (st st' : St) (x : Nat)
    (h : st'.nodes x = st.nodes x) (ht : trivial_eff st x) : trivial_eff st' x := by
  unfold trivial_eff at ht ⊢
  rw [h]
  exact ht

/-- One wave of the drain loop runs the effects of the queue exactly in link
order: the run log is extended by the queue list itself. -/
theorem wave_order : ∀ (L : List Nat) (g : Nat) (st : St) (cur : Option Nat),
    queue_is st cur L → L.Nodup →
    (∀ x ∈ L, trivial_eff st x) → 1 ≤ st.batch_depth →
    L.length ≤ g →
    ∃ T, wave (g + 3) st cur false 0 = some (T, Except.ok (false, 0)) ∧
      T.runlog = st.runlog ++ L ∧
      (∀ j, j ∉ L → T.nodes j = st.nodes j) ∧
      T.batch_depth = st.batch_depth ∧
      T.batched_effect = st.batched_effect ∧
      T.batch_iteration = st.batch_iteration := by
  intro L
  induction L with
  | nil =>
    intro g st cur hq _ _ _ _
    rw [show cur = none from hq]
    exact ⟨st, rfl, by simp, fun j _ => rfl, rfl, rfl, rfl⟩
  | cons e es ih =>
    intro g st cur hq hnd htr hbd hlen
    obtain ⟨hcur, hq2⟩ := hq
    subst hcur
    obtain ⟨g', rfl⟩ : ∃ g', g = g' + 1 := by
      cases g with
      | zero => simp at hlen
      | succ g' => exact ⟨g', rfl⟩
    obtain ⟨hk, hr, hdis, hdirty, hdeps, k, hcmp⟩ := htr e (by simp)
    unfold wave
    rw [if_pos (by simp [hdis])]
    rw [is_stale_dirty (g' + 2) _ e _ (by simp [hdirty])]
    dsimp only
    obtain ⟨T1, hT1, hfr1, hbe1, hbd1, hbi1, hrl1⟩ :=
      refresh_trivial_eff (g' + 1)
        (st.upd e { st.nodes e with
          flags := { (st.nodes e).flags with notified := false },
          next_batched := none })
        e k (by simp [hk]) (by simp [hr]) (by simp [hdis])
        (by simp [hdeps]) (by simp [hcmp]) (by simpa using hbd)
    rw [hT1]
    dsimp only
    have hes_frame : ∀ x ∈ es, T1.nodes x = st.nodes x := by
      intro x hx
      have hxe : x ≠ e := by
        intro hxx
        subst hxx
        exact (List.nodup_cons.mp hnd).1 hx
      rw [hfr1 x hxe]
      simp [hxe]
    obtain ⟨T, hT, hrl, hfrT, hbdT, hbeT, hbiT⟩ :=
      ih g' T1 (st.nodes e).next_batched
        (queue_is_congr st T1 es _ hes_frame hq2)
        (List.nodup_cons.mp hnd).2
        (fun x hx => trivial_eff_congr st T1 x (hes_frame x hx) (htr x (by simp [hx])))
        (by rw [hbd1]; simpa using hbd)
        (by simpa using hlen)
    refine ⟨T, hT, ?_, ?_, ?_, ?_, ?_⟩
    · rw [hrl, hrl1]
      simp
    · intro j hj
      have hje : j ≠ e := by
        intro hjj
        exact hj (by simp [hjj])
      rw [hfrT j (by intro hji; exact hj (by simp [hji])), hfr1 j hje]
      simp [hje]
    · rw [hbdT, hbd1]
      simp
    · rw [hbeT, hbe1]
      simp
    · rw [hbiT, hbi1]
      simp

/-- **C7** — LIFO wave order.  (a) `Effect._notify` on a not-notified,
not-running effect pushes onto the head of the singly-linked batched queue:
the effect's `next_batched` pointer is set to the old head, the head becomes
the effect itself, and no other node changes.  (b) The drain iterates the
queue in link order: one wave over a queue whose link order is `L` appends
exactly `L` to the run log, so the last-notified (head) effect runs first. -/
theorem C7_lifo_wave_order (f : Nat) :
    (∀ st i flag, (st.nodes i).kind = NKind.eff →
      (st.nodes i).flags.notified = false → (st.nodes i).flags.running = false →
      ∃ st', notify (f + 1) st i flag = some st' ∧
        st'.batched_effect = some i ∧
        (st'.nodes i).next_batched = st.batched_effect ∧
        (st'.nodes i).flags.notified = true ∧
        (∀ j, j ≠ i → st'.nodes j = st.nodes j)) ∧
    (∀ L st, queue_is st st.batched_effect L → L.Nodup →
      (∀ x ∈ L, trivial_eff st x) → 1 ≤ st.batch_depth → L.length ≤ f →
      ∃ T, wave (f + 3) st st.batched_effect false 0 = some (T, Except.ok (false, 0)) ∧
        T.runlog = st.runlog ++ L) := by
  constructor
  · intro st i flag hk hn hr
    unfold notify
    simp only [hk]
    rw [if_neg (by simp [hn, hr])]
    refine ⟨_, rfl, rfl, ?_, ?_, ?_⟩
    · simp
    · simp
    · intro j hj
      simp [hj]
  · intro L st hq hnd htr hbd hlen
    obtain ⟨T, hT, hrl, _⟩ := wave_order L f st st.batched_effect hq hnd htr hbd hlen
    exact ⟨T, hT, hrl⟩

def lifo_st : St :=
  { init_st with
    batched_effect := some 0,
    nodes := fun j => if j = 1 then mkEffect (Expr.lit 5) 0 else mkSignal 0 }

def lifo_wave_st : St :=
  { init_st with
    batch_depth := 1,
    batched_effect := some 2,
    nodes := fun j =>
      if j = 1 then
        { mkEffect (Expr.lit 11) 0 with flags := { noFlags with dirty := true } }
      else if j = 2 then
        { mkEffect (Expr.lit 22) 0 with
          flags := { noFlags with dirty := true }, next_batched := some 1 }
      else mkSignal 0 }

def lifo_notify_st : St := (notify 5 lifo_st 1 NFlag.dirty).getD init_st

def lifo_wave_T : St :=
  ((wave 7 lifo_wave_st lifo_wave_st.batched_effect false 0).getD
    (init_st, Except.ok (false, 0))).1

theorem C7_lifo_wave_order_witness :
    notify 5 lifo_st 1 NFlag.dirty = some lifo_notify_st ∧
    lifo_notify_st.batched_effect = some 1 ∧
    (lifo_notify_st.nodes 1).next_batched = some 0 ∧
    wave 7 lifo_wave_st lifo_wave_st.batched_effect false 0 =
      some (lifo_wave_T, Except.ok (false, 0)) ∧
    lifo_wave_T.runlog = [2, 1] := by
  obtain ⟨ha, hb⟩ := C7_lifo_wave_order 4
  obtain ⟨st', hn, hbe, hnext, _, _⟩ := ha lifo_st 1 NFlag.dirty rfl rfl rfl
  obtain ⟨T, hw, hrl⟩ := hb [2, 1] lifo_wave_st ⟨rfl, rfl, rfl⟩ (by decide)
    (by
      intro x hx
      rcases List.mem_cons.mp hx with rfl | hx2
      · exact ⟨rfl, rfl, rfl, rfl, rfl, 22, rfl⟩
      rcases List.mem_cons.mp hx2 with rfl | h3
      · exact ⟨rfl, rfl, rfl, rfl, rfl, 11, rfl⟩
      cases h3)
    (by decide) (by decide)
  norm_num at hn hw
  have h1 : lifo_notify_st = st' := by
    unfold lifo_notify_st
    rw [hn]
    rfl
  have h2 : lifo_wave_T = T := by
    unfold lifo_wave_T
    rw [hw]
    rfl
  refine ⟨?_, ?_, ?_, ?_, ?_⟩
  · rw [h1]
    exact hn
  · rw [h1]
    exact hbe
  · rw [h1]
    exact hnext.trans rfl
  · rw [h2]
    exact hw
  · rw [h2, hrl]
    rfl

/-- Relation between one step of the real drain loop (which carries only the
first caught error in `has_error` / `err`) and its ghost twin (which collects
every caught error): the ghost run determines the real one. -/
def drainRel (b : Bool) (e : Int) (acc : List Int)
    (w : Option (St × Except Int (Bool × Int)))
    (we : Option (St × Except Int (List Int))) : Prop :=
  match we with
  | none => True
  | some (st', .error x) => w = some (st', .error x)
  | some (st', .ok acc') =>
      ∃ D, acc' = acc ++ D ∧
        w = some (st', .ok (b || !D.isEmpty, if b = true then e else D.headD e))

theorem drainRel_none (f : Nat) (st : St) (b : Bool) (e : Int) (acc : List Int) :
    drainRel b e acc (wave f st none b e) (wave_errs f st none acc) := by
  have hD : ∀ (w : Option (St × Except Int (Bool × Int))),
      w = some (st, Except.ok (b, e)) →
      drainRel b e acc w (some (st, Except.ok acc)) := by
    intro w hw
    exact ⟨[], by simp, by rw [hw]; cases b <;> simp⟩
  cases f with
  | zero => exact hD _ rfl
  | succ g => exact hD _ rfl

theorem wave_rel : ∀ (f : Nat) (st : St) (cur : Option Nat) (b : Bool) (e : Int)
    (acc : List Int),
    drainRel b e acc (wave f st cur b e) (wave_errs f st cur acc) := by
  intro f
  induction f with
  | zero =>
    intro st cur b e acc
    cases cur with
    | none => exact drainRel_none 0 st b e acc
    | some h0 => trivial
  | succ f ih =>
    intro st cur b e acc
    cases cur with
    | none => exact drainRel_none (f + 1) st b e acc
    | some h0 =>
      unfold wave wave_errs
      dsimp only
      by_cases hdis : (st.nodes h0).flags.disposed = false
      case neg =>
        rw [if_neg hdis]
        rw [if_neg hdis]
        exact ih _ _ _ _ _
      case pos =>
        rw [if_pos hdis]
        rw [if_pos hdis]
        cases his : is_stale f (st.upd h0
            { st.nodes h0 with
              flags := { (st.nodes h0).flags with notified := false },
              next_batched := none }) h0
            { (st.nodes h0).flags with notified := false } with
        | none => trivial
        | some p =>
          obtain ⟨st2, r⟩ := p
          cases r with
          | error x => exact rfl
          | ok stale =>
            cases stale with
            | false =>
              dsimp only
              exact ih _ _ _ _ _
            | true =>
              dsimp only
              cases hrf : refresh f st2 h0 with
              | none => trivial
              | some q =>
                obtain ⟨st3, r2⟩ := q
                cases r2 with
                | ok u =>
                  dsimp only
                  exact ih _ _ _ _ _
                | error e2 =>
                  dsimp only
                  cases b with
                  | false =>
                    rw [if_neg (by simp)]
                    have h2 := ih st3 (st.nodes h0).next_batched true e2 (acc ++ [e2])
                    cases hwe2 : wave_errs f st3 (st.nodes h0).next_batched (acc ++ [e2]) with
                    | none => trivial
                    | some q2 =>
                      obtain ⟨st4, r4⟩ := q2
                      rw [hwe2] at h2
                      cases r4 with
                      | error x => exact h2
                      | ok acc' =>
                        obtain ⟨D, hD, hw⟩ := h2
                        refine ⟨e2 :: D, ?_, ?_⟩
                        · rw [hD]
                          simp
                        · rw [hw]
                          simp
                  | true =>
                    rw [if_pos rfl]
                    have h2 := ih st3 (st.nodes h0).next_batched true e (acc ++ [e2])
                    cases hwe2 : wave_errs f st3 (st.nodes h0).next_batched (acc ++ [e2]) with
                    | none => trivial
                    | some q2 =>
                      obtain ⟨st4, r4⟩ := q2
                      rw [hwe2] at h2
                      cases r4 with
                      | error x => exact h2
                      | ok acc' =>
                        obtain ⟨D, hD, hw⟩ := h2
                        refine ⟨e2 :: D, ?_, ?_⟩
                        · rw [hD]
                          simp
                        · rw [hw]
                          simp

/-- Same relation, at the level of whole drains: the ghost list of caught
errors determines the first-error behaviour of the real `end_batch` drain. -/
def drainRelD (b : Bool) (e : Int) (acc : List Int)
    (w : Option (St × Except Int Unit))
    (we : Option (St × Except Int (List Int))) : Prop :=
  match we with
  | none => True
  | some (st', .error x) => w = some (st', .error x)
  | some (st', .ok acc') =>
      ∃ D, acc' = acc ++ D ∧
        w = some (st',
          if b || !D.isEmpty then Except.error (if b = true then e else D.headD e)
          else Except.ok ())

theorem drain_rel : ∀ (f : Nat) (st : St) (b : Bool) (e : Int) (acc : List Int),
    drainRelD b e acc (drain f st b e) (drain_errs f st acc) := by
  intro f
  induction f with
  | zero =>
    intro st b e acc
    trivial
  | succ f ih =>
    intro st b e acc
    unfold drain drain_errs
    dsimp only
    cases hbe : st.batched_effect with
    | none =>
      dsimp only
      exact ⟨[], by simp, by cases b <;> simp⟩
    | some h0 =>
      dsimp only
      have hwv := wave_rel f
        { st with batched_effect := none, batch_iteration := st.batch_iteration + 1 }
        (some h0) b e acc
      cases hwe : wave_errs f
          { st with batched_effect := none, batch_iteration := st.batch_iteration + 1 }
          (some h0) acc with
      | none => trivial
      | some p =>
        obtain ⟨st2, r⟩ := p
        rw [hwe] at hwv
        cases r with
        | error x =>
          dsimp only
          rw [hwv]
          rfl
        | ok acc1 =>
          dsimp only
          obtain ⟨D1, hD1, hw1⟩ := hwv
          rw [hw1]
          dsimp only
          have h2 := ih st2 (b || !D1.isEmpty) (if b = true then e else D1.headD e) acc1
          cases hde : drain_errs f st2 acc1 with
          | none => trivial
          | some q =>
            obtain ⟨st3, r3⟩ := q
            rw [hde] at h2
            cases r3 with
            | error x => exact h2
            | ok acc' =>
              obtain ⟨D2, hD2, hw2⟩ := h2
              refine ⟨D1 ++ D2, ?_, ?_⟩
              · rw [hD2, hD1]
                simp
              · rw [hw2]
                cases b <;> cases D1 <;> simp

theorem drain_errs_post : ∀ (f : Nat) (st : St) (acc : List Int) (st2 : St)
    (errs : List Int),
    drain_errs f st acc = some (st2, Except.ok errs) →
    st2.batch_iteration = 0 ∧ st2.batched_effect = none := by
  intro f
  induction f with
  | zero =>
    intro st acc st2 errs h
    exact Option.noConfusion h
  | succ f ih =>
    intro st acc st2 errs h
    unfold drain_errs at h
    dsimp only at h
    cases hbe : st.batched_effect with
    | none =>
      rw [hbe] at h
      dsimp only at h
      simp only [Option.some.injEq, Prod.mk.injEq, Except.ok.injEq] at h
      obtain ⟨h1, h2⟩ := h
      rw [← h1]
      exact ⟨rfl, rfl⟩
    | some h0 =>
      rw [hbe] at h
      dsimp only at h
      cases hwe : wave_errs f
          { st with batched_effect := none, batch_iteration := st.batch_iteration + 1 }
          (some h0) acc with
      | none =>
        rw [hwe] at h
        exact Option.noConfusion h
      | some p =>
        obtain ⟨st1, r⟩ := p
        rw [hwe] at h
        cases r with
        | error x =>
          dsimp only at h
          simp at h
        | ok acc1 =>
          dsimp only at h
          exact ih st1 acc1 st2 errs h

/-- **C3** — first-error drain.  On an outermost `end_batch` (batch depth not
above 1), if the ghost drain collects the caught effect errors `errs` (in
the order they were thrown) and completes, then the real `end_batch` drains
to the very same state, re-raises exactly the FIRST collected error (and
raises nothing when no effect threw), and leaves `batch_iteration` reset to
0 with an empty batched-effect queue. -/
theorem C3_first_error_drain (f : Nat) (st st2 : St) (errs : List Int)
    (hdep : ¬ st.batch_depth > 1)
    (hrun : drain_errs f st [] = some (st2, Except.ok errs)) :
    end_batch (f + 1) st =
      some (st2, if errs.isEmpty then Except.ok () else Except.error (errs.headD 0)) ∧
    st2.batch_iteration = 0 ∧ st2.batched_effect = none := by
  have hrel := drain_rel f st false 0 []
  rw [hrun] at hrel
  obtain ⟨D, hD, hw⟩ := hrel
  have hD2 : errs = D := by simpa using hD
  subst hD2
  constructor
  · unfold end_batch
    rw [if_neg hdep, hw]
    cases errs <;> simp
  · exact drain_errs_post f st [] st2 _ hrun

theorem eval_throw_lit (f : Nat) (st : St) (p k : Int) :
    eval (f + 2) st p (Expr.throwE (Expr.lit k)) = some (st, .error k) := by
  unfold eval
  dsimp only
  rw [eval_lit]

/-- A queued effect that tracks nothing and whose body throws a literal:
`Effect._refresh` appends it to the run log, propagates the thrown value,
and leaves every other node, the queue head and the batch counters
untouched. -/
theorem refresh_throw_eff (f : Nat) (st : St) (e : Nat) (k : Int)
    (hk : (st.nodes e).kind = NKind.eff)
    (hr : (st.nodes e).flags.running = false)
    (hdis : (st.nodes e).flags.disposed = false)
    (hdeps : (st.nodes e).dependencies = [])
    (hcmp : (st.nodes e).compute = Expr.throwE (Expr.lit k))
    (hdep : 1 ≤ st.batch_depth) :
    ∃ T, refresh (f + 3) st e = some (T, Except.error k) ∧
      (∀ j, j ≠ e → T.nodes j = st.nodes j) ∧
      T.batched_effect = st.batched_effect ∧
      T.batch_depth = st.batch_depth ∧
      T.batch_iteration = st.batch_iteration ∧
      T.runlog = st.runlog ++ [e] := by
  unfold refresh
  simp only [hk]
  rw [if_neg (by simp [hr])]
  rw [show ((eff_enter st e (st.nodes e).flags).nodes e).compute =
    Expr.throwE (Expr.lit k) from by simp [hcmp]]
  rw [eval_throw_lit]
  dsimp only
  rw [cleanup_context_noop (f + 2) _ e (by simp) (by simp) (by simp) (by simp [hdeps])]
  dsimp only
  rw [if_neg (by simp [hdis])]
  dsimp only
  unfold end_batch
  rw [if_pos (by simp; omega)]
  dsimp only
  refine ⟨_, rfl, ?_, ?_, ?_, ?_, ?_⟩
  · intro j hj
    simp [St.upd_nodes, hj]
  · simp
  · simp
  · simp
  · simp

/-- An undisposed, not-running, `DIRTY` effect with no dependencies whose
body throws a bare literal. -/
def trivial_throw_eff (st : St) (e : Nat) : Prop :=
  (st.nodes e).kind = NKind.eff ∧
  (st.nodes e).flags.running = false ∧
  (st.nodes e).flags.disposed = false ∧
  (st.nodes e).flags.dirty = true ∧
  (st.nodes e).dependencies = [] ∧
  ∃ k, (st.nodes e).compute = Expr.throwE (Expr.lit k)

theorem trivial_throw_eff_congr (st st' : St) (x : Nat)
    (h : st'.nodes x = st.nodes x) (ht : trivial_throw_eff st x) :
    trivial_throw_eff st' x := by
  unfold trivial_throw_eff at ht ⊢
  rw [h]
  exact ht

/-- The literal a throwing body raises (used only to state which errors a
ghost wave collects). -/
def thrownOf : Expr → Int
  | Expr.throwE (Expr.lit k) => k
  | _ => 0

/-- One ghost wave over a queue of throwing effects collects exactly the
thrown literals, in link order. -/
theorem wave_errs_order : ∀ (L : List Nat) (g : Nat) (st : St) (cur : Option Nat)
    (acc : List Int),
    queue_is st cur L → L.Nodup →
    (∀ x ∈ L, trivial_throw_eff st x) → 1 ≤ st.batch_depth →
    L.length ≤ g →
    ∃ T, wave_errs (g + 4) st cur acc =
        some (T, Except.ok (acc ++ L.map (fun x => thrownOf (st.nodes x).compute))) ∧
      (∀ j, j ∉ L → T.nodes j = st.nodes j) ∧
      T.batch_depth = st.batch_depth ∧
      T.batched_effect = st.batched_effect ∧
      T.batch_iteration = st.batch_iteration := by
  intro L
  induction L with
  | nil =>
    intro g st cur acc hq _ _ _ _
    rw [show cur = none from hq]
    refine ⟨st, ?_, fun j _ => rfl, rfl, rfl, rfl⟩
    simp only [List.map_nil, List.append_nil]
    rfl
  | cons e es ih =>
    intro g st cur acc hq hnd htr hbd hlen
    obtain ⟨hcur, hq2⟩ := hq
    subst hcur
    obtain ⟨g', rfl⟩ : ∃ g', g = g' + 1 := by
      cases g with
      | zero => simp at hlen
      | succ g' => exact ⟨g', rfl⟩
    obtain ⟨hk, hr, hdis, hdirty, hdeps, k, hcmp⟩ := htr e (by simp)
    unfold wave_errs
    rw [if_pos (by simp [hdis])]
    rw [is_stale_dirty (g' + 3) _ e _ (by simp [hdirty])]
    dsimp only
    obtain ⟨T1, hT1, hfr1, hbe1, hbd1, hbi1, hrl1⟩ :=
      refresh_throw_eff (g' + 1)
        (st.upd e { st.nodes e with
          flags := { (st.nodes e).flags with notified := false },
          next_batched := none })
        e k (by simp [hk]) (by simp [hr]) (by simp [hdis])
        (by simp [hdeps]) (by simp [hcmp]) (by simpa using hbd)
    rw [hT1]
    dsimp only
    have hes_frame : ∀ x ∈ es, T1.nodes x = st.nodes x := by
      intro x hx
      have hxe : x ≠ e := by
        intro hxx
        subst hxx
        exact (List.nodup_cons.mp hnd).1 hx
      rw [hfr1 x hxe]
      simp [hxe]
    obtain ⟨T, hT, hfrT, hbdT, hbeT, hbiT⟩ :=
      ih g' T1 (st.nodes e).next_batched (acc ++ [k])
        (queue_is_congr st T1 es _ hes_frame hq2)
        (List.nodup_cons.mp hnd).2
        (fun x hx => trivial_throw_eff_congr st T1 x (hes_frame x hx)
          (htr x (by simp [hx])))
        (by rw [hbd1]; simpa using hbd)
        (by simpa using hlen)
    have hmap : es.map (fun x => thrownOf (T1.nodes x).compute) =
        es.map (fun x => thrownOf (st.nodes x).compute) :=
      List.map_congr_left (fun x hx => by rw [hes_frame x hx])
    have heq : (acc ++ [k]) ++ es.map (fun x => thrownOf (T1.nodes x).compute) =
        acc ++ (e :: es).map (fun x => thrownOf (st.nodes x).compute) := by
      rw [hmap, List.map_cons, hcmp]
      simp [thrownOf]
    refine ⟨T, hT.trans (by rw [heq]), ?_, ?_, ?_, ?_⟩
    · intro j hj
      have hje : j ≠ e := by
        intro hjj
        exact hj (by simp [hjj])
      rw [hfrT j (by intro hji; exact hj (by simp [hji])), hfr1 j hje]
      simp [hje]
    · rw [hbdT, hbd1]
      simp
    · rw [hbeT, hbe1]
      simp
    · rw [hbiT, hbi1]
      simp

def batch_example_st : St :=
  { init_st with
    batch_depth := 1,
    batched_effect := some 2,
    nodes := fun j =>
      if j = 1 then
        { mkEffect (Expr.throwE (Expr.lit 11)) 0 with
          flags := { noFlags with dirty := true, notified := true } }
      else if j = 2 then
        { mkEffect (Expr.throwE (Expr.lit 22)) 0 with
          flags := { noFlags with dirty := true, notified := true },
          next_batched := some 1 }
      else mkSignal 0 }

def batch_final_st : St :=
  ((drain_errs 12 batch_example_st []).getD (init_st, Except.ok [])).1

theorem drain_errs_example (g : Nat) :
    ∃ T, drain_errs (g + 7) batch_example_st [] = some (T, Except.ok [22, 11]) := by
  obtain ⟨T, hT, hfrT, hbdT, hbeT, hbiT⟩ :=
    wave_errs_order [2, 1] (g + 2)
      { batch_example_st with
        batched_effect := none,
        batch_iteration := batch_example_st.batch_iteration + 1 }
      (some 2) []
      ⟨rfl, rfl, rfl⟩ (by decide)
      (by
        intro x hx
        rcases List.mem_cons.mp hx with rfl | hx2
        · exact ⟨rfl, rfl, rfl, rfl, rfl, 22, rfl⟩
        rcases List.mem_cons.mp hx2 with rfl | h3
        · exact ⟨rfl, rfl, rfl, rfl, rfl, 11, rfl⟩
        cases h3)
      (by decide) (by simpa using Nat.le_add_left 2 g)
  have hT2 : wave_errs (g + 2 + 4)
      { batch_example_st with
        batched_effect := none,
        batch_iteration := batch_example_st.batch_iteration + 1 }
      (some 2) [] = some (T, Except.ok [22, 11]) := by
    rw [hT]
    rfl
  have hmain : drain_errs (g + 7) batch_example_st [] =
      some ({ T with batch_iteration := 0, batch_depth := T.batch_depth - 1 },
        Except.ok [22, 11]) := by
    unfold drain_errs
    rw [show batch_example_st.batched_effect = some 2 from rfl]
    dsimp only
    rw [hT2]
    dsimp only
    unfold drain_errs
    rw [hbeT.trans rfl]
  exact ⟨_, hmain⟩

theorem C3_first_error_drain_witness :
    end_batch 13 batch_example_st = some (batch_final_st, Except.error 22) ∧
    batch_final_st.batch_iteration = 0 ∧ batch_final_st.batched_effect = none := by
  obtain ⟨T, hrun⟩ := drain_errs_example 5
  norm_num at hrun
  have hbf : batch_final_st = T := by
    unfold batch_final_st
    rw [hrun]
    rfl
  obtain ⟨h1, h2, h3⟩ :=
    C3_first_error_drain 12 batch_example_st T [22, 11] (by decide) hrun
  rw [hbf]
  refine ⟨?_, h2, h3⟩
  simpa using h1

/-- Unsubscribing a computation from a list of distinct `Signal` sources
removes (exactly) the first occurrence of the computation from each source's
dependants and touches nothing else. -/
theorem unsubscribe_list_sigs : ∀ (ds : List Nat) (g : Nat) (st st' : St) (i : Nat),
    (∀ d ∈ ds, (st.nodes d).kind = NKind.sig) → ds.Nodup →
    unsubscribe_list g st ds i = some st' →
    (∀ d ∈ ds, (st'.nodes d).dependants = remove_dependant (st.nodes d).dependants i) ∧
    (∀ j, j ∉ ds → st'.nodes j = st.nodes j) ∧
    st'.eval_listener = st.eval_listener ∧
    st'.batch_depth = st.batch_depth ∧
    st'.batched_effect = st.batched_effect ∧
    st'.batch_iteration = st.batch_iteration := by
  intro ds
  induction ds with
  | nil =>
    intro g st st' i _ _ h
    have hst : st' = st := by
      cases g with
      | zero => exact (Option.some.inj h).symm
      | succ g2 => exact (Option.some.inj h).symm
    subst hst
    exact ⟨by simp, fun j _ => rfl, rfl, rfl, rfl, rfl⟩
  | cons d ds2 ih =>
    intro g st st' i hsig hnd h
    cases g with
    | zero => exact Option.noConfusion h
    | succ g1 =>
      unfold unsubscribe_list at h
      cases g1 with
      | zero =>
        rw [show unsubscribe 0 st d i = none from rfl] at h
        exact Option.noConfusion h
      | succ g2 =>
        have hu : unsubscribe (g2 + 1) st d i =
            some (st.upd d { st.nodes d with
              dependants := remove_dependant (st.nodes d).dependants i }) := by
          unfold unsubscribe
          simp only [hsig d (by simp)]
        rw [hu] at h
        dsimp only at h
        have hdnotin : d ∉ ds2 := (List.nodup_cons.mp hnd).1
        obtain ⟨hm, hf, hl, hbd, hbe, hbi⟩ := ih (g2 + 1) _ st' i
          (fun x hx => by
            have hxd : x ≠ d := fun hh => hdnotin (hh ▸ hx)
            rw [St.upd_nodes, if_neg hxd]
            exact hsig x (by simp [hx]))
          (List.nodup_cons.mp hnd).2 h
        refine ⟨?_, ?_, ?_, ?_, ?_, ?_⟩
        · intro x hx
          rcases List.mem_cons.mp hx with rfl | hx2
          · rw [hf x hdnotin]
            simp
          · rw [hm x hx2]
            have hxd : x ≠ d := fun hh => hdnotin (hh ▸ hx2)
            simp [St.upd_nodes, hxd]
        · intro j hj
          have hjd : j ≠ d := fun hh => hj (by simp [hh])
          rw [hf j (fun hh => hj (by simp [hh]))]
          simp [St.upd_nodes, hjd]
        · rw [hl]
          simp
        · rw [hbd]
          simp
        · rw [hbe]
          simp
        · rw [hbi]
          simp

/-- **C8** — throwing cleanup.  When an effect's cleanup callbacks run and
one throws: the effect is marked `DISPOSED`, disposal completes (the effect
is unsubscribed from every dependency and its dependency list is emptied),
the first cleanup error is re-raised to the caller, and the cleanup list is
emptied with the previous listener restored regardless. -/
theorem C8_cleanup_throw (g : Nat) (st st2 st3 : St) (i : Nat) (e : Int)
    (ds : List Nat)
    (hne : 0 < (st.nodes i).cleanups.length)
    (hrun : run_cleanups (g + 1)
        { st with batch_depth := st.batch_depth + 1, eval_listener := none }
        (st.nodes i).cleanups = some (st2, Except.error e))
    (hdeps2 : (st2.nodes i).dependencies = ds)
    (hsig : ∀ d ∈ ds, (st2.nodes d).kind = NKind.sig)
    (hnd : ds.Nodup) (hi : i ∉ ds)
    (hunsub : unsubscribe_list g
        (st2.upd i { st2.nodes i with
          flags := { (st2.nodes i).flags with running := false, disposed := true } })
        ds i = some st3)
    (hdepth2 : 1 < st2.batch_depth) :
    ∃ st4, cleanup_effect (g + 2) st i = some (st4, Except.error e) ∧
      (st4.nodes i).flags.disposed = true ∧
      (st4.nodes i).dependencies = [] ∧
      (st4.nodes i).cleanups = [] ∧
      st4.eval_listener = st.eval_listener ∧
      (∀ d ∈ ds, (st4.nodes d).dependants =
        remove_dependant ((st2.nodes d).dependants) i) := by
  obtain ⟨hm3, hf3, hl3, hbd3, hbe3, hbi3⟩ :=
    unsubscribe_list_sigs ds g
      (st2.upd i { st2.nodes i with
        flags := { (st2.nodes i).flags with running := false, disposed := true } })
      st3 i
      (fun d hd => by
        have hdi : d ≠ i := fun hh => hi (hh ▸ hd)
        rw [St.upd_nodes, if_neg hdi]
        exact hsig d hd)
      hnd hunsub
  unfold cleanup_effect
  dsimp only
  rw [if_pos hne, hrun]
  dsimp only
  have hdisp : dispose_effect (g + 1)
      (st2.upd i { st2.nodes i with
        flags := { (st2.nodes i).flags with running := false, disposed := true } })
      i false =
      some (st3.upd i { st3.nodes i with dependencies := [] }, Except.ok ()) := by
    unfold dispose_effect
    rw [show ((st2.upd i { st2.nodes i with
        flags := { (st2.nodes i).flags with running := false, disposed := true }
      }).nodes i).dependencies = ds from by simp [hdeps2]]
    rw [hunsub]
    rfl
  rw [hdisp]
  dsimp only
  have hend : end_batch (g + 1)
      ({ (st3.upd i { st3.nodes i with dependencies := [] }).upd i
          { ((st3.upd i { st3.nodes i with dependencies := [] }).nodes i) with
            cleanups := [] } with
        eval_listener := st.eval_listener } : St) =
      some ({ (st3.upd i { st3.nodes i with dependencies := [] }).upd i
          { ((st3.upd i { st3.nodes i with dependencies := [] }).nodes i) with
            cleanups := [] } with
        eval_listener := st.eval_listener,
        batch_depth := st3.batch_depth - 1 }, Except.ok ()) := by
    unfold end_batch
    rw [if_pos (by
      simp only [St.upd_batch_depth]
      rw [hbd3]
      simpa using hdepth2)]
    rfl
  rw [hend]
  dsimp only
  have hii : st3.nodes i =
      (st2.upd i { st2.nodes i with
        flags := { (st2.nodes i).flags with running := false, disposed := true }
      }).nodes i := hf3 i hi
  refine ⟨_, rfl, ?_, ?_, ?_, ?_, ?_⟩
  · simp [hii]
  · simp
  · simp
  · rfl
  · intro d hd
    have hdi : d ≠ i := fun hh => hi (hh ▸ hd)
    rw [show (({ (st3.upd i { st3.nodes i with dependencies := [] }).upd i
        { ((st3.upd i { st3.nodes i with dependencies := [] }).nodes i) with
          cleanups := [] } with
        eval_listener := st.eval_listener,
        batch_depth := st3.batch_depth - 1 } : St).nodes d) = st3.nodes d from by
      simp [St.upd_nodes, hdi]]
    rw [hm3 d hd]
    simp [St.upd_nodes, hdi]

def c8_st : St :=
  { init_st with
    batch_depth := 1,
    eval_listener := some 5,
    nodes := fun j =>
      if j = 0 then { mkSignal 7 with dependants := [1, 3] }
      else if j = 1 then
        { mkEffect (Expr.lit 0) 0 with
          dependencies := [0],
          flags := { noFlags with tracking := true, running := true },
          cleanups := [Expr.throwE (Expr.lit 5), Expr.throwE (Expr.lit 6)] }
      else mkSignal 0 }

def c8_st2 : St :=
  ((run_cleanups 6 { c8_st with batch_depth := c8_st.batch_depth + 1, eval_listener := none }
    (c8_st.nodes 1).cleanups).getD (init_st, Except.ok ())).1

def c8_st3 : St :=
  (unsubscribe_list 5 (c8_st2.upd 1 { c8_st2.nodes 1 with
    flags := { (c8_st2.nodes 1).flags with running := false, disposed := true } })
    [0] 1).getD init_st

def c8_st4 : St :=
  ((cleanup_effect 7 c8_st 1).getD (init_st, Except.ok ())).1

theorem C8_cleanup_throw_witness :
    cleanup_effect 7 c8_st 1 = some (c8_st4, Except.error 5) ∧
    (c8_st4.nodes 1).flags.disposed = true ∧
    (c8_st4.nodes 1).dependencies = [] ∧
    (c8_st4.nodes 1).cleanups = [] ∧
    c8_st4.eval_listener = some 5 ∧
    (c8_st4.nodes 0).dependants = [3] := by
  obtain ⟨st4, h1, h2, h3, h4, h5, h6⟩ :=
    C8_cleanup_throw 5 c8_st c8_st2 c8_st3 1 5 [0]
      (by decide) rfl rfl
      (by
        intro d hd
        simp only [List.mem_singleton] at hd
        subst hd
        rfl)
      (by decide) (by decide)
      rfl
      (by decide)
  norm_num at h1
  have hid : c8_st4 = st4 := by
    unfold c8_st4
    rw [h1]
    rfl
  rw [hid]
  exact ⟨h1, h2, h3, h4, h5.trans rfl, (h6 0 (by simp)).trans (by rfl)⟩
